import Mathlib

/-!
Verification of the core hit-filtering and classification algorithms of the
synthaser package (`synthaser/models.py`, `synthaser/results.py`,
`synthaser/classify.py`), via a shallow embedding in Lean 4.

Conventions of the embedding:
* Python ints are modelled as `ℤ`; the float thresholds (0.2, 0.5, 0.1, …)
  are modelled as exact rationals `ℚ` (the claims under study do not hinge
  on binary floating-point rounding).
* Python lists are `List`; in-place mutation is modelled by explicit state
  passing (functions return the new list).
* Fallible code (KeyError from dict lookups, TypeError from hashing an
  unhashable `Domain`, ValueError from unpacking a short slice) is modelled
  with `Except PyErr`.
* `models.Domain` declares slots `type, domain, start, end`;
  `results.py` additionally constructs domains with `evalue`/`bitscore`
  keyword fields, calls `len()` on them and sorts by `evalue`
  (`parse_row`, `filter_domain_group`, `special_rules`,
  `detect_fragmented_domain`).  The `Domain` variant those call sites
  require is not present under the checked sources, so the extra field is
  Modelled from the spec: "score fields (e-value, bit score)" and hit
  length `end - start` ("start/end positions (1-based, inclusive)").
  The immutable `end` keyword of Lean is rendered as the field `end'`.
-/

/-- Python exception kinds relevant to the embedded code. -/
inductive PyErr where
  | typeError
  | keyError
  | valueError
  deriving DecidableEq, Repr

/-- `models.Domain` (a conserved-domain hit), extended with the `evalue`
score field that `results.py` reads (see module docstring). -/
structure Domain where
  type : String
  domain : String
  start : ℤ
  end' : ℤ
  evalue : ℚ
  deriving DecidableEq, Repr

instance : Inhabited Domain := ⟨⟨"", "", 0, 0, 0⟩⟩

/-- Hit length `end - start`, as used by `len(domain)` in `results.py`. -/
def Domain.length (d : Domain) : ℤ := d.end' - d.start

/-- `Domain.__eq__` (models.py:195-203): value equality on the four source
fields `type`, `domain`, `start` and `end` only.  The spec-modelled
`evalue` does not participate, so two hits differing only in e-value
compare equal under `==`. -/
def Domain.pyEq (a b : Domain) : Bool :=
  a.type == b.type && a.domain == b.domain && a.start == b.start && a.end' == b.end'

/-- Comparison key of `domains.sort(key=attrgetter("start"))`. -/
def startLe (a b : Domain) : Prop := a.start ≤ b.start

instance : DecidableRel startLe := fun a b => inferInstanceAs (Decidable (a.start ≤ b.start))

instance : IsTotal Domain startLe := ⟨fun a b => Int.le_total a.start b.start⟩

instance : IsTrans Domain startLe := ⟨fun _ _ _ => Int.le_trans⟩

/-- Comparison key of `sorted(group, key=lambda d: d.evalue)`. -/
def evalueLe (a b : Domain) : Prop := a.evalue ≤ b.evalue

instance : DecidableRel evalueLe := fun a b => inferInstanceAs (Decidable (a.evalue ≤ b.evalue))

/-- `domains.sort(key=attrgetter("start"))` — Python's stable in-place sort
by ascending start (insertion sort is stable, matching Timsort's contract). -/
def sortStart (l : List Domain) : List Domain := l.insertionSort startLe

/-- `sorted(group, key=lambda d: d.evalue)` — stable sort by e-value. -/
def sortEvalue (l : List Domain) : List Domain := l.insertionSort evalueLe

/-- `results.hits_overlap` / `models.hits_overlap` (identical bodies):
overlap amount `max(0, min(end_a, end_b) - max(start_a, start_b))`
compared against `threshold * length` of either hit. -/
def hitsOverlap (threshold : ℚ) (a b : Domain) : Bool :=
  let start := max a.start b.start
  let end_ := min a.end' b.end'
  let overlap : ℤ := max 0 (end_ - start)
  decide ((overlap : ℚ) ≥ threshold * ((a.end' - a.start : ℤ) : ℚ)) ||
    decide ((overlap : ℚ) ≥ threshold * ((b.end' - b.start : ℤ) : ℚ))

/-- The grouping loop of `group_overlapping_hits`, acting on the
already-sorted list: each group is the current hit plus the maximal run of
immediately following hits that each overlap the *current* (first) hit; the
scan then resumes at the first non-overlapping hit. -/
def groupLoop (threshold : ℚ) : List Domain → List (List Domain)
  | [] => []
  | x :: rest =>
      (x :: rest.takeWhile (fun y => hitsOverlap threshold x y)) ::
        groupLoop threshold (rest.dropWhile (fun y => hitsOverlap threshold x y))
termination_by l => l.length
decreasing_by
  simp only [List.length_cons]
  exact Nat.lt_succ_of_le (List.Sublist.length_le (List.dropWhile_sublist _))

/-- `group_overlapping_hits(domains, threshold)`: the generator first sorts
`domains` in place by start, then yields groups.  The embedding returns the
list of yielded groups; see `groupOverlappingHitsState` for the side effect
on the argument. -/
def groupOverlappingHits (threshold : ℚ) (domains : List Domain) : List (List Domain) :=
  groupLoop threshold (sortStart domains)

/-- State-passing view of `group_overlapping_hits`: first component is the
caller's list after the generator has run (`domains.sort(...)` mutates the
argument in place), second component the yielded groups. -/
def groupOverlappingHitsState (threshold : ℚ) (domains : List Domain) :
    List Domain × List (List Domain) :=
  (sortStart domains, groupLoop threshold (sortStart domains))

/-- `ResultParser.pssm_lengths`: canonical profile length per CDD family. -/
def pssmLengths : List (String × ℕ) :=
  [("PKS_KS", 298), ("PKS", 421), ("CLF", 399), ("KAS_I_II", 406),
   ("CHS_like", 361), ("KAS_III", 320), ("PKS_AT", 298),
   ("Acyl_transf_1", 319), ("PKS_ER", 287), ("enoyl_red", 293),
   ("KR", 180), ("PKS_KR", 287), ("Thioesterase", 224), ("Aes", 312),
   ("Thioester-redct", 367), ("SDR_e1", 290), ("Methyltransf_11", 95),
   ("Methyltransf_12", 98), ("Methyltransf_23", 162), ("Methyltransf_25", 97),
   ("Methyltransf_31", 150), ("AdoMet_MTases", 107), ("PKS_DH", 167),
   ("PS-DH", 289), ("PT_fungal_PKS", 324), ("PKS_PP", 86),
   ("PP-binding", 67), ("AcpP", 80), ("AcpS", 127), ("acpS", 125),
   ("ACPS", 104), ("SAT", 239), ("Condensation", 455), ("A_NRPS", 444),
   ("AMP-binding", 361), ("NRPS-para261", 153), ("Carn_acyltransf", 575),
   ("mcbC-like_oxidoreductase", 180), ("RimI", 177)]

/-- Dictionary access `self.pssm_lengths[name]` (None models a KeyError). -/
def pssmLength (name : String) : Option ℕ := pssmLengths.lookup name

/-- The single entry of `ResultParser.special_rules`:
`"E": lambda a, b: len(a) > len(b) and a.type == "C" and b.type == "E"`. -/
def specialRuleE (a b : Domain) : Bool :=
  decide (a.length > b.length) && a.type == "C" && b.type == "E"

/-- `ResultParser.special_rules` as the (key, predicate) list that the code
iterates over. -/
def specialRules : List (String × (Domain → Domain → Bool)) := [("E", specialRuleE)]

/-- `ResultParser.detect_fragmented_domain(one, two, coverage_pct, tolerance_pct)`.
The PSSM length of `one.domain` is looked up (KeyError if absent); the
result is true iff both hits individually cover less than
`coverage_pct` of the profile, `two.end - one.start` lies within
`±tolerance_pct` of the profile length, and the combined hit length exceeds
the coverage bound. -/
def detectFragmentedDomain (coveragePct tolerancePct : ℚ) (one two : Domain) :
    Except PyErr Bool :=
  match pssmLength one.domain with
  | none => .error .keyError
  | some pssmLen =>
      let coverage : ℚ := pssmLen * coveragePct
      let tolerance : ℚ := pssmLen * tolerancePct
      let oneLength : ℚ := (one.length : ℚ)
      let twoLength : ℚ := (two.length : ℚ)
      .ok (decide (oneLength < coverage) && decide (twoLength < coverage) &&
        decide ((pssmLen : ℚ) - tolerance ≤ ((two.end' - one.start : ℤ) : ℚ)) &&
        decide (((two.end' - one.start : ℤ) : ℚ) ≤ (pssmLen : ℚ) + tolerance) &&
        decide (oneLength + twoLength > coverage))

/-- Inner rule scan of `ResultParser.filter_domain_group`: test the
`special_rules` against (container, domain) for each remaining group member
in e-value order, retyping the container on the first hit and returning
immediately. -/
def applyGroupRules (container : Domain) : List Domain → Domain
  | [] => container
  | d :: ds =>
      match specialRules.find? (fun rule => rule.2 container d) with
      | some rule => { container with type := rule.1 }
      | none => applyGroupRules container ds

/-- `ResultParser.filter_domain_group(group)`: stable-sort the group by
e-value, take the best hit as container, and apply the special rules
against every other member. -/
def filterDomainGroup (group : List Domain) : Domain :=
  match sortEvalue group with
  | [] => default
  | container :: rest => applyGroupRules container rest

/-- One step outcome of the merge loop in `ResultParser.filter_domains`. -/
inductive MergeStep where
  | merged (filtered : List Domain)
  | ruled (filtered : List Domain)
  | skipped
  deriving Repr

/-- The `while i < total` loop of `ResultParser.filter_domains`.  `total` is
the *original* list length and is never updated after deletions; the loop
unpacks `filtered[i - 1 : i + 1]` (ValueError when the slice has fewer than
two elements), merges fragmented same-family neighbours (re-testing the
same index), and otherwise applies the special rules (advancing).  -/
def mergeLoop (total : ℕ) (i : ℕ) (filtered : List Domain) :
    Except PyErr (List Domain) :=
  if _hi : i < total then
    if i + 1 = total then .ok filtered
    else
      if hlen : i < filtered.length then
        if (filtered.get ⟨i - 1, Nat.lt_of_le_of_lt (Nat.sub_le i 1) hlen⟩).domain
            == (filtered.get ⟨i, hlen⟩).domain then
          match detectFragmentedDomain 0.5 0.1
              (filtered.get ⟨i - 1, Nat.lt_of_le_of_lt (Nat.sub_le i 1) hlen⟩)
              (filtered.get ⟨i, hlen⟩) with
          | .error e => .error e
          | .ok true =>
              mergeLoop total i
                ((filtered.set (i - 1)
                  { filtered.get ⟨i - 1, Nat.lt_of_le_of_lt (Nat.sub_le i 1) hlen⟩ with
                      end' := (filtered.get ⟨i, hlen⟩).end' }).eraseIdx i)
          | .ok false =>
              match specialRules.find? (fun rule =>
                  rule.2 (filtered.get ⟨i - 1, Nat.lt_of_le_of_lt (Nat.sub_le i 1) hlen⟩)
                    (filtered.get ⟨i, hlen⟩)) with
              | some rule =>
                  mergeLoop total (i + 1)
                    ((filtered.set (i - 1)
                      { filtered.get ⟨i - 1, Nat.lt_of_le_of_lt (Nat.sub_le i 1) hlen⟩ with
                          type := rule.1 }).eraseIdx i)
              | none => mergeLoop total (i + 1) filtered
        else
          match specialRules.find? (fun rule =>
              rule.2 (filtered.get ⟨i - 1, Nat.lt_of_le_of_lt (Nat.sub_le i 1) hlen⟩)
                (filtered.get ⟨i, hlen⟩)) with
          | some rule =>
              mergeLoop total (i + 1)
                ((filtered.set (i - 1)
                  { filtered.get ⟨i - 1, Nat.lt_of_le_of_lt (Nat.sub_le i 1) hlen⟩ with
                      type := rule.1 }).eraseIdx i)
          | none => mergeLoop total (i + 1) filtered
      else .error .valueError
  else .ok filtered
termination_by (total - i) + filtered.length
decreasing_by
  all_goals first
    | (simp only [List.length_eraseIdx, List.length_set, hlen, if_true]; omega)
    | omega

/-- The merge pass of `ResultParser.filter_domains` (everything between the
group resolution and the final length filter), started with
`i, total = 1, len(filtered)`. -/
def mergePass (filtered : List Domain) : Except PyErr (List Domain) :=
  mergeLoop filtered.length 1 filtered

/-- The final comprehension of `ResultParser.filter_domains`: keep only
domains with `len(domain) > 0.2 * pssm_lengths[domain.domain]`
(KeyError on an unknown family). -/
def finalLengthFilter : List Domain → Except PyErr (List Domain)
  | [] => .ok []
  | d :: ds =>
      match pssmLength d.domain with
      | none => .error .keyError
      | some pssmLen => do
          let rest ← finalLengthFilter ds
          if (d.length : ℚ) > 0.2 * (pssmLen : ℚ) then
            .ok (d :: rest)
          else
            .ok rest

/-- `ResultParser.filter_domains(domains)`: resolve each overlap group to
one representative, run the fragment-merge / special-rule pass, then drop
short hits. -/
def filterDomains (domains : List Domain) : Except PyErr (List Domain) := do
  let filtered := (groupOverlappingHits 0.2 domains).map filterDomainGroup
  let merged ← mergePass filtered
  finalLengthFilter merged

/-- `classify.Rule`: name, rename dictionary, required domain types,
per-type CDD family filters, and the boolean evaluator string. -/
structure Rule where
  name : String
  rename : List (String × String)
  domains : List String
  filters : List (String × List String)
  evaluator : String
  deriving DecidableEq, Repr

/-- `Rule.valid_family(domain)`: if families are specified for the hit's
type, the hit's CDD family must be among them; otherwise any family of the
type is accepted. -/
def Rule.validFamily (r : Rule) (d : Domain) : Bool :=
  match r.filters.lookup d.type with
  | some families => families.contains d.domain
  | none => true

/-- `Rule.rename_domains(domains)`.  The source guards on
`domain.type in self.rename` but then evaluates `self.rename[domain]`,
indexing the dict with the `Domain` object itself; `models.Domain` defines
`__eq__` without `__hash__` and is therefore unhashable, so the lookup
raises TypeError on the first hit whose type is a rename key.  Hits are
scanned in order and no hit is ever actually renamed. -/
def Rule.renameDomains (r : Rule) (domains : List Domain) : Except PyErr (List Domain) :=
  if r.rename.isEmpty then .ok domains
  else go domains
where
  /-- The `for domain in domains` loop of `rename_domains`. -/
  go : List Domain → Except PyErr (List Domain)
    | [] => .ok []
    | d :: ds =>
        if (r.rename.map Prod.fst).contains d.type then .error .typeError
        else do
          let rest ← go ds
          .ok (d :: rest)

/-- The inner `for domain in domains` scan of `Rule.satisfied_by` for one
required type: find the first hit that is not yet claimed (`domain in seen`
tests the list elements against the hit with `Domain.__eq__`, i.e.
`Domain.pyEq` over the four source fields), has the required type, and
passes the family filter. -/
def Rule.findMatch (r : Rule) (seen : List Domain) (ruleDomain : String) :
    List Domain → Option Domain
  | [] => none
  | d :: ds =>
      if seen.any (fun s => s.pyEq d) then r.findMatch seen ruleDomain ds
      else if d.type == ruleDomain && r.validFamily d then some d
      else r.findMatch seen ruleDomain ds

/-- The requirement loop of `Rule.satisfied_by`: one boolean per required
type code, claiming each matched hit so it cannot satisfy a later
requirement. -/
def Rule.conditionsGo (r : Rule) (domains : List Domain) :
    List String → List Domain → List Bool
  | [], _ => []
  | rd :: rds, seen =>
      match r.findMatch seen rd domains with
      | some d => true :: r.conditionsGo domains rds (seen ++ [d])
      | none => false :: r.conditionsGo domains rds seen

/-- The `conditions` list built by `Rule.satisfied_by` before evaluation. -/
def Rule.conditions (r : Rule) (domains : List Domain) : List Bool :=
  r.conditionsGo domains r.domains []

/-- Decimal digit character (the argument is reduced mod 10 first). -/
def digitChar10 (d : ℕ) : Char :=
  if d % 10 = 0 then '0' else if d % 10 = 1 then '1' else if d % 10 = 2 then '2'
  else if d % 10 = 3 then '3' else if d % 10 = 4 then '4' else if d % 10 = 5 then '5'
  else if d % 10 = 6 then '6' else if d % 10 = 7 then '7' else if d % 10 = 8 then '8'
  else '9'

/-- Decimal representation of a natural number, as the Python builtin
`str(idx)` produces for a non-negative int. -/
def natChars (n : ℕ) : List Char :=
  if _h : n < 10 then [digitChar10 n]
  else natChars (n / 10) ++ [digitChar10 (n % 10)]
termination_by n
decreasing_by exact Nat.div_lt_self (by omega) (by omega)

/-- `str(idx)` for a natural index. -/
def natStr (n : ℕ) : String := ⟨natChars n⟩

/-- `str(condition)` for a Python bool. -/
def pyBoolStr (b : Bool) : String := if b then "True" else "False"

/-- Python `str.replace(old, new)` on character lists: replace every
non-overlapping occurrence, scanning left to right.  (The empty-pattern
case never arises here: patterns are decimal numerals.) -/
def listReplace (pat rep : List Char) : List Char → List Char
  | [] => []
  | c :: cs =>
      if pat.isPrefixOf (c :: cs) ∧ pat ≠ [] then
        rep ++ listReplace pat rep ((c :: cs).drop pat.length)
      else
        c :: listReplace pat rep cs
termination_by s => s.length
decreasing_by
  · simp only [List.length_drop, List.length_cons]
    have : 1 ≤ pat.length := List.length_pos.mpr (by tauto)
    omega
  · simp

/-- Python `str.replace` on strings. -/
def pyReplace (s pat rep : String) : String := ⟨listReplace pat.data rep.data s.data⟩

/-- Python `enumerate(conditions)` starting at a given index. -/
def pyEnum (i : ℕ) : List Bool → List (ℕ × Bool)
  | [] => []
  | c :: cs => (i, c) :: pyEnum (i + 1) cs

/-- The substitution loop of `Rule.evaluate`:
`for idx, condition in reversed(list(enumerate(conditions))):
evaluator = evaluator.replace(str(idx), str(condition))` — highest index
first. -/
def substituteConditions (evaluator : String) (conditions : List Bool) : String :=
  (pyEnum 0 conditions).reverse.foldl
    (fun s p => pyReplace s (natStr p.1) (pyBoolStr p.2)) evaluator

/-- Whitespace tokenisation of an expression string (the accumulator holds
the current word reversed). -/
def splitWordsAux (cur : List Char) : List Char → List (List Char)
  | [] => if cur.isEmpty then [] else [cur.reverse]
  | c :: cs =>
      if c = ' ' then
        if cur.isEmpty then splitWordsAux [] cs
        else cur.reverse :: splitWordsAux [] cs
      else splitWordsAux (c :: cur) cs

/-- Whitespace-separated tokens of an expression string. -/
def splitWords (s : List Char) : List (List Char) := splitWordsAux [] s

/-- Atom/`not` layer of the boolean fragment of Python `eval` used by rule
evaluator strings: `True`, `False` and `not`. -/
def parseNotLevel : ℕ → List (List Char) → Option (Bool × List (List Char))
  | 0, _ => none
  | fuel + 1, tokens =>
      if tokens.head? = some "not".data then
        (parseNotLevel fuel tokens.tail).map (fun p => (!p.1, p.2))
      else if tokens.head? = some "True".data then some (true, tokens.tail)
      else if tokens.head? = some "False".data then some (false, tokens.tail)
      else none

/-- `and` layer (binds tighter than `or`). -/
def parseAndLevel : ℕ → List (List Char) → Option (Bool × List (List Char))
  | 0, _ => none
  | fuel + 1, tokens =>
      match parseNotLevel (fuel + 1) tokens with
      | none => none
      | some (b, rest) =>
          if rest.head? = some "and".data then
            (parseAndLevel fuel rest.tail).map (fun p => (b && p.1, p.2))
          else some (b, rest)

/-- `or` layer (weakest-binding connective). -/
def parseOrLevel : ℕ → List (List Char) → Option (Bool × List (List Char))
  | 0, _ => none
  | fuel + 1, tokens =>
      match parseAndLevel (fuel + 1) tokens with
      | none => none
      | some (b, rest) =>
          if rest.head? = some "or".data then
            (parseOrLevel fuel rest.tail).map (fun p => (b || p.1, p.2))
          else some (b, rest)

/-- Python `eval` restricted to the whitespace-separated boolean expressions
(`True`/`False`/`and`/`or`/`not`) that substituted evaluator strings form;
any other string (a failed substitution, a syntax error, a non-boolean
result) yields `none`. -/
def pyEvalBool (s : String) : Option Bool :=
  let tokens := splitWords s.data
  match parseOrLevel (tokens.length + 1) tokens with
  | some (b, []) => some b
  | _ => none

/-- `Rule.evaluate(conditions)`: substitute each condition at its positional
index (highest index first) and evaluate the resulting expression. -/
def Rule.evaluate (r : Rule) (conditions : List Bool) : Option Bool :=
  pyEvalBool (substituteConditions r.evaluator conditions)

/-- `Rule.satisfied_by(domains)`: build the per-requirement booleans and
evaluate the rule's evaluator string over them. -/
def Rule.satisfiedBy (r : Rule) (domains : List Domain) : Option Bool :=
  r.evaluate (r.conditions domains)

/-- A node of the JSON rule graph traversed by `classify._traverse_graph`:
either a bare rule name (a terminal), or a dictionary whose entries map a
rule name to the child graph evaluated when that rule is satisfied. -/
inductive GraphItem where
  | leaf (name : String)
  | tree (entries : List (String × List GraphItem))
  deriving Repr

/-- The behaviour of one entry of the `rules` dict of `RuleGraph` as used by
`_traverse_graph`: the rule's `satisfied_by` test and its `rename_domains`
side effect on the shared domain list (modelled by state passing). -/
structure RuleObj where
  satisfiedBy : List Domain → Bool
  renameDomains : List Domain → List Domain

mutual

/-- `classify._traverse_graph` on a list graph (`isinstance(graph, list)`):
walk the sibling nodes in order; a dict node is recursed into, breaking as
soon as the returned classifier list is non-empty; a name node is tested
with `satisfied_by`, and on success `rename_domains` runs, the name is
appended, and the loop breaks.  State `(classifiers, domains)` is threaded
explicitly. -/
def traverseList (rules : String → RuleObj) :
    List GraphItem → List Domain → List String → List String × List Domain
  | [], domains, classifiers => (classifiers, domains)
  | .tree entries :: rest, domains, classifiers =>
      if (traverseTree rules entries domains classifiers).1.isEmpty then
        traverseList rules rest (traverseTree rules entries domains classifiers).2
          (traverseTree rules entries domains classifiers).1
      else traverseTree rules entries domains classifiers
  | .leaf name :: rest, domains, classifiers =>
      if (rules name).satisfiedBy domains then
        ((classifiers ++ [name]), (rules name).renameDomains domains)
      else traverseList rules rest domains classifiers

/-- `classify._traverse_graph` on a dict graph: test each
`(node, children)` item in order; on the first satisfied rule, rename,
append the name, traverse the children, and break. -/
def traverseTree (rules : String → RuleObj) :
    List (String × List GraphItem) → List Domain → List String →
    List String × List Domain
  | [], domains, classifiers => (classifiers, domains)
  | (name, children) :: rest, domains, classifiers =>
      if (rules name).satisfiedBy domains then
        traverseList rules children ((rules name).renameDomains domains)
          (classifiers ++ [name])
      else traverseTree rules rest domains classifiers
end

/-- `RuleGraph.classify(domains)` = `_traverse_graph(self.graph, self.rules,
domains)` with an empty starting classifier list. -/
def ruleGraphClassify (rules : String → RuleObj) (graph : List GraphItem)
    (domains : List Domain) : List String × List Domain :=
  traverseList rules graph domains []

mutual

/-- All rule names a traversal of one graph node may test. -/
def itemNames : GraphItem → List String
  | .leaf name => [name]
  | .tree entries => entryNames entries

/-- All rule names a traversal of a dict graph may test. -/
def entryNames : List (String × List GraphItem) → List String
  | [] => []
  | (name, children) :: rest => name :: (graphNames children ++ entryNames rest)

/-- All rule names a traversal of a list graph may test. -/
def graphNames : List GraphItem → List String
  | [] => []
  | item :: rest => itemNames item ++ graphNames rest

end

/-- Rule objects for the traversal counterexample: "A" and "C" are always
satisfied, every other name never; no rule renames anything. -/
def cexRules : String → RuleObj := fun name =>
  if name = "A" ∨ name = "C" then ⟨fun _ => true, fun domains => domains⟩
  else ⟨fun _ => false, fun domains => domains⟩

/-- Graph for the traversal counterexample:
`[{"A": [{"B": ["X"]}, "C"]}]` — after "A" matches, its child list holds a
subtree headed by the unsatisfiable "B" followed by the sibling "C". -/
def cexGraph : List GraphItem :=
  [.tree [("A", [.tree [("B", [.leaf "X"])], .leaf "C"])]]

/-- The decimal digit characters. -/
def digitList : List Char := ['0', '1', '2', '3', '4', '5', '6', '7', '8', '9']

/-- Decidable equality for embedded fallible results. -/
instance {e a : Type} [DecidableEq e] [DecidableEq a] : DecidableEq (Except e a) := fun x y =>
  match x, y with
  | .error u, .error v =>
      if h : u = v then isTrue (by rw [h]) else isFalse (by intro hc; cases hc; exact h rfl)
  | .error _, .ok _ => isFalse (by intro hc; cases hc)
  | .ok _, .error _ => isFalse (by intro hc; cases hc)
  | .ok u, .ok v =>
      if h : u = v then isTrue (by rw [h]) else isFalse (by intro hc; cases hc; exact h rfl)

/-! ### Properties of the overlap grouper -/

/-- `hits_overlap` is symmetric in its two hits. -/
theorem hitsOverlap_comm (threshold : ℚ) (a b : Domain) :
    hitsOverlap threshold a b = hitsOverlap threshold b a := by
  simp only [hitsOverlap, max_comm a.start b.start, min_comm a.end' b.end',
    Bool.or_comm]

/-- Concatenating the yielded groups recovers the sorted hit list: no hit
is dropped or duplicated by the grouping loop. -/
theorem groupLoop_flatten (threshold : ℚ) (l : List Domain) :
    (groupLoop threshold l).flatten = l := by
  induction l using groupLoop.induct threshold with
  | case1 => simp [groupLoop]
  | case2 x rest ih =>
      rw [groupLoop]
      simp only [List.flatten_cons, List.cons_append]
      rw [ih, List.takeWhile_append_dropWhile]

/-- Every yielded group is non-empty. -/
theorem groupLoop_ne_nil (threshold : ℚ) (l : List Domain) :
    ∀ g ∈ groupLoop threshold l, g ≠ [] := by
  induction l using groupLoop.induct threshold with
  | case1 => simp [groupLoop]
  | case2 x rest ih =>
      rw [groupLoop]
      intro g hg
      rw [List.mem_cons] at hg
      cases hg with
      | inl h => rw [h]; simp
      | inr h => exact ih g h

/-- On a pairwise non-overlapping list the grouping loop yields exactly one
singleton group per hit. -/
theorem groupLoop_of_pairwise (threshold : ℚ) (l : List Domain)
    (h : l.Pairwise (fun a b => hitsOverlap threshold a b = false)) :
    groupLoop threshold l = l.map (fun d => [d]) := by
  induction l using groupLoop.induct threshold with
  | case1 => simp [groupLoop]
  | case2 x rest ih =>
      rw [groupLoop]
      rw [List.pairwise_cons] at h
      have htake : rest.takeWhile (fun y => hitsOverlap threshold x y) = [] := by
        cases rest with
        | nil => simp
        | cons y ys =>
            rw [List.takeWhile_cons_of_neg]
            simp [h.1 y (List.mem_cons_self y ys)]
      have hdrop : rest.dropWhile (fun y => hitsOverlap threshold x y) = rest := by
        cases rest with
        | nil => simp
        | cons y ys =>
            rw [List.dropWhile_cons_of_neg]
            simp [h.1 y (List.mem_cons_self y ys)]
      rw [hdrop] at ih
      rw [htake, hdrop, ih h.2]
      simp

/-- C5: `group_overlapping_hits` yields a finite sequence of non-empty
groups in which every input hit appears in exactly one group (their
concatenation is a permutation of the input); in particular, on a pairwise
non-overlapping collection it yields exactly one singleton group per hit
(in sorted order), which also covers the single trailing hit. -/
theorem groupOverlappingHits_partition (threshold : ℚ) (domains : List Domain) :
    List.Perm (groupOverlappingHits threshold domains).flatten domains ∧
    (∀ g ∈ groupOverlappingHits threshold domains, g ≠ []) ∧
    (domains.Pairwise (fun a b => hitsOverlap threshold a b = false) →
      groupOverlappingHits threshold domains =
        (sortStart domains).map (fun d => [d])) := by
  refine ⟨?_, ?_, ?_⟩
  · rw [groupOverlappingHits, groupLoop_flatten]
    exact List.perm_insertionSort startLe domains
  · exact groupLoop_ne_nil threshold (sortStart domains)
  · intro hpw
    have hsymm : ∀ {a b : Domain}, hitsOverlap threshold a b = false →
        hitsOverlap threshold b a = false := by
      intro a b hab
      rw [hitsOverlap_comm]
      exact hab
    have : (sortStart domains).Pairwise
        (fun a b => hitsOverlap threshold a b = false) :=
      ((List.perm_insertionSort startLe domains).pairwise_iff hsymm).mpr hpw
    exact groupLoop_of_pairwise threshold _ this

/-- Concrete instantiation of `groupOverlappingHits_partition`: two disjoint
hits, each its own singleton group. -/
theorem groupOverlappingHits_partition_witness :
    List.Perm
      (groupOverlappingHits 0.2 [⟨"KS", "PKS_KS", 0, 90, 0⟩, ⟨"AT", "PKS_AT", 100, 200, 0⟩]).flatten
      [⟨"KS", "PKS_KS", 0, 90, 0⟩, ⟨"AT", "PKS_AT", 100, 200, 0⟩] ∧
    groupOverlappingHits 0.2 [⟨"KS", "PKS_KS", 0, 90, 0⟩, ⟨"AT", "PKS_AT", 100, 200, 0⟩]
      = [[⟨"KS", "PKS_KS", 0, 90, 0⟩], [⟨"AT", "PKS_AT", 100, 200, 0⟩]] := by
  have h := groupOverlappingHits_partition 0.2
    [⟨"KS", "PKS_KS", 0, 90, 0⟩, ⟨"AT", "PKS_AT", 100, 200, 0⟩]
  refine ⟨h.1, ?_⟩
  have hpw : List.Pairwise (fun a b => hitsOverlap 0.2 a b = false)
      [⟨"KS", "PKS_KS", 0, 90, 0⟩, ⟨"AT", "PKS_AT", 100, 200, 0⟩] := by
    refine List.pairwise_cons.mpr ⟨?_, by simp⟩
    intro b hb
    rw [List.mem_singleton] at hb
    subst hb
    norm_num [hitsOverlap]
  rw [h.2.2 hpw]
  norm_num [sortStart, List.insertionSort, List.orderedInsert, startLe]

/-- C10: advancing the generator returned by `group_overlapping_hits` sorts
the caller's domain list in place by ascending start position (the final
state of the argument is its start-sorted permutation), so an unsorted
argument is permanently reordered, as the concrete final conjunct shows. -/
theorem groupOverlappingHits_mutates_argument :
    (∀ (threshold : ℚ) (domains : List Domain),
      (groupOverlappingHitsState threshold domains).1 = sortStart domains ∧
      List.Sorted startLe (groupOverlappingHitsState threshold domains).1 ∧
      List.Perm (groupOverlappingHitsState threshold domains).1 domains) ∧
    (groupOverlappingHitsState 0.2
        [⟨"AT", "PKS_AT", 100, 200, 0⟩, ⟨"KS", "PKS_KS", 0, 90, 0⟩]).1
      ≠ [⟨"AT", "PKS_AT", 100, 200, 0⟩, ⟨"KS", "PKS_KS", 0, 90, 0⟩] := by
  constructor
  · intro threshold domains
    exact ⟨rfl, List.sorted_insertionSort startLe domains,
      List.perm_insertionSort startLe domains⟩
  · have : (groupOverlappingHitsState 0.2
        [⟨"AT", "PKS_AT", 100, 200, 0⟩, ⟨"KS", "PKS_KS", 0, 90, 0⟩]).1
        = [⟨"KS", "PKS_KS", 0, 90, 0⟩, ⟨"AT", "PKS_AT", 100, 200, 0⟩] := by
      norm_num [groupOverlappingHitsState, sortStart, List.insertionSort,
        List.orderedInsert, startLe]
    rw [this]
    simp

/-! ### Rule.rename_domains -/

/-- C2 (divergence witness): evaluating `rename_domains` of an NRPS-style
rule (rename `{"ACP": "T", "TR": "R"}`) on a hit list containing an ACP hit
raises TypeError: the guard tests `domain.type in self.rename`, but the
assignment reads `self.rename[domain]`, indexing the dict with the
unhashable `Domain` object itself, so no hit is ever renamed. -/
theorem renameDomains_raises_typeError :
    Rule.renameDomains
      ⟨"NRPS", [("ACP", "T"), ("TR", "R")], ["A", "ACP", "C"], [], "0 and 1 and 2"⟩
      [⟨"A", "A_NRPS", 1, 100, 0⟩, ⟨"ACP", "PKS_PP", 120, 180, 0⟩]
      = .error .typeError := by
  decide

/-! ### The final length filter of filter_domains -/

/-- Reduction of the embedded Except bind on a success value. -/
theorem exceptOk_bind {e a b : Type} (x : a) (f : a → Except e b) :
    (Except.ok x >>= f) = f x := rfl

/-- Reduction of the embedded Except bind on an error value. -/
theorem exceptError_bind {e a b : Type} (err : e) (f : a → Except e b) :
    ((Except.error err : Except e a) >>= f) = Except.error err := rfl

/-- Every hit surviving `finalLengthFilter` has a known family and length
strictly above 20% of its canonical profile length. -/
theorem finalLengthFilter_mem (l out : List Domain)
    (h : finalLengthFilter l = .ok out) :
    ∀ d ∈ out, ∃ L : ℕ, pssmLength d.domain = some L ∧
      (d.length : ℚ) > 0.2 * (L : ℚ) := by
  induction l generalizing out with
  | nil =>
      simp only [finalLengthFilter] at h
      cases h
      simp
  | cons x xs ih =>
      simp only [finalLengthFilter] at h
      cases hp : pssmLength x.domain with
      | none => simp [hp] at h
      | some L =>
          cases hrec : finalLengthFilter xs with
          | error e => simp [hp, hrec, exceptError_bind] at h
          | ok rest =>
              simp only [hp, hrec, exceptOk_bind] at h
              by_cases hlen : (x.length : ℚ) > 0.2 * (L : ℚ)
              · rw [if_pos hlen] at h
                cases h
                intro d hd
                rw [List.mem_cons] at hd
                cases hd with
                | inl hd => subst hd; exact ⟨L, hp, hlen⟩
                | inr hd => exact ih rest hrec d hd
              · rw [if_neg hlen] at h
                cases h
                exact ih _ hrec

/-- C9 (amended): every hit in a successful `filter_domains` result has
length strictly above 20% of its family's canonical profile length — hits
at or below the bound are dropped by the final comprehension, not marked. -/
theorem filterDomains_truncation_drops (domains result : List Domain)
    (h : filterDomains domains = .ok result) :
    ∀ d ∈ result, ∃ L : ℕ, pssmLength d.domain = some L ∧
      (d.length : ℚ) > 0.2 * (L : ℚ) := by
  rw [filterDomains] at h
  cases hm : mergePass ((groupOverlappingHits 0.2 domains).map filterDomainGroup) with
  | error e => rw [hm, exceptError_bind] at h; cases h
  | ok merged =>
      rw [hm, exceptOk_bind] at h
      exact finalLengthFilter_mem merged result h

/-- Concrete instantiation of `filterDomains_truncation_drops` on a KS hit
long enough to survive. -/
theorem filterDomains_truncation_drops_witness :
    ∃ L : ℕ, pssmLength (⟨"KS", "PKS_KS", 0, 90, 0⟩ : Domain).domain = some L ∧
      ((⟨"KS", "PKS_KS", 0, 90, 0⟩ : Domain).length : ℚ) > 0.2 * (L : ℚ) := by
  have h1 : groupOverlappingHits 0.2 [(⟨"KS", "PKS_KS", 0, 90, 0⟩ : Domain)]
      = [[⟨"KS", "PKS_KS", 0, 90, 0⟩]] := by
    norm_num [groupOverlappingHits, sortStart, List.insertionSort,
      List.orderedInsert, groupLoop]
  have h2 : filterDomainGroup [(⟨"KS", "PKS_KS", 0, 90, 0⟩ : Domain)]
      = ⟨"KS", "PKS_KS", 0, 90, 0⟩ := by
    have hs : sortEvalue [(⟨"KS", "PKS_KS", 0, 90, 0⟩ : Domain)]
        = [⟨"KS", "PKS_KS", 0, 90, 0⟩] := by
      norm_num [sortEvalue, List.insertionSort, List.orderedInsert]
    rw [filterDomainGroup, hs]
    simp [applyGroupRules]
  have h3 : mergePass [(⟨"KS", "PKS_KS", 0, 90, 0⟩ : Domain)]
      = .ok [⟨"KS", "PKS_KS", 0, 90, 0⟩] := by
    rw [mergePass, mergeLoop]
    norm_num
  have h4 : finalLengthFilter [(⟨"KS", "PKS_KS", 0, 90, 0⟩ : Domain)]
      = .ok [⟨"KS", "PKS_KS", 0, 90, 0⟩] := by
    simp only [finalLengthFilter, show pssmLength "PKS_KS" = some 298 from by decide]
    norm_num [Domain.length, exceptOk_bind]
  exact filterDomains_truncation_drops [⟨"KS", "PKS_KS", 0, 90, 0⟩]
    [⟨"KS", "PKS_KS", 0, 90, 0⟩]
    (by rw [filterDomains, h1]; simp only [List.map, h2, h3, exceptOk_bind, h4])
    ⟨"KS", "PKS_KS", 0, 90, 0⟩ (by simp)

/-- C9 (counterexample): a lone KS hit of length 50 (below 20% of the
PKS_KS profile length 298) survives the merge pass unchanged but is
*dropped* from the returned sequence instead of being kept with a
"truncated" flag (no such flag exists on `Domain`). -/
theorem filterDomains_short_hit_not_kept :
    mergePass [(⟨"KS", "PKS_KS", 0, 50, 0⟩ : Domain)]
      = .ok [⟨"KS", "PKS_KS", 0, 50, 0⟩] ∧
    ((⟨"KS", "PKS_KS", 0, 50, 0⟩ : Domain).length : ℚ) < 0.2 * (298 : ℚ) ∧
    filterDomains [(⟨"KS", "PKS_KS", 0, 50, 0⟩ : Domain)] = .ok [] := by
  have h1 : groupOverlappingHits 0.2 [(⟨"KS", "PKS_KS", 0, 50, 0⟩ : Domain)]
      = [[⟨"KS", "PKS_KS", 0, 50, 0⟩]] := by
    norm_num [groupOverlappingHits, sortStart, List.insertionSort,
      List.orderedInsert, groupLoop]
  have h2 : filterDomainGroup [(⟨"KS", "PKS_KS", 0, 50, 0⟩ : Domain)]
      = ⟨"KS", "PKS_KS", 0, 50, 0⟩ := by
    have hs : sortEvalue [(⟨"KS", "PKS_KS", 0, 50, 0⟩ : Domain)]
        = [⟨"KS", "PKS_KS", 0, 50, 0⟩] := by
      norm_num [sortEvalue, List.insertionSort, List.orderedInsert]
    rw [filterDomainGroup, hs]
    simp [applyGroupRules]
  have h3 : mergePass [(⟨"KS", "PKS_KS", 0, 50, 0⟩ : Domain)]
      = .ok [⟨"KS", "PKS_KS", 0, 50, 0⟩] := by
    rw [mergePass, mergeLoop]
    norm_num
  have h4 : finalLengthFilter [(⟨"KS", "PKS_KS", 0, 50, 0⟩ : Domain)] = .ok [] := by
    simp only [finalLengthFilter, show pssmLength "PKS_KS" = some 298 from by decide]
    norm_num [Domain.length, exceptOk_bind]
  refine ⟨h3, by norm_num [Domain.length], ?_⟩
  rw [filterDomains, h1]
  simp only [List.map, h2, h3, exceptOk_bind, h4]

/-! ### The fragment-merge pass -/

/-- C3 (counterexample): two same-family KR fragments that satisfy every
coalescing condition (each under 50% of the 180-residue KR profile, span
169 within ±10% of 180, combined length over the bound) are returned
unmerged when they form the final adjacent pair: the loop breaks on
`i + 1 == total` before ever examining that pair. -/
theorem filterDomains_last_pair_unmerged :
    detectFragmentedDomain 0.5 0.1 ⟨"KR", "KR", 1, 80, 0⟩ ⟨"KR", "KR", 100, 170, 0⟩
      = .ok true ∧
    filterDomains [⟨"KR", "KR", 1, 80, 0⟩, ⟨"KR", "KR", 100, 170, 0⟩]
      = .ok [⟨"KR", "KR", 1, 80, 0⟩, ⟨"KR", "KR", 100, 170, 0⟩] := by
  constructor
  · simp only [detectFragmentedDomain, show pssmLength "KR" = some 180 from by decide]
    norm_num [Domain.length]
  · have h1 : groupOverlappingHits 0.2 [⟨"KR", "KR", 1, 80, 0⟩, ⟨"KR", "KR", 100, 170, 0⟩]
        = [[⟨"KR", "KR", 1, 80, 0⟩], [⟨"KR", "KR", 100, 170, 0⟩]] := by
      norm_num [groupOverlappingHits, sortStart, List.insertionSort,
        List.orderedInsert, startLe, groupLoop, hitsOverlap]
    have h2 : filterDomainGroup [(⟨"KR", "KR", 1, 80, 0⟩ : Domain)]
        = ⟨"KR", "KR", 1, 80, 0⟩ := by
      have hs : sortEvalue [(⟨"KR", "KR", 1, 80, 0⟩ : Domain)]
          = [⟨"KR", "KR", 1, 80, 0⟩] := by
        norm_num [sortEvalue, List.insertionSort, List.orderedInsert]
      rw [filterDomainGroup, hs]
      simp [applyGroupRules]
    have h2' : filterDomainGroup [(⟨"KR", "KR", 100, 170, 0⟩ : Domain)]
        = ⟨"KR", "KR", 100, 170, 0⟩ := by
      have hs : sortEvalue [(⟨"KR", "KR", 100, 170, 0⟩ : Domain)]
          = [⟨"KR", "KR", 100, 170, 0⟩] := by
        norm_num [sortEvalue, List.insertionSort, List.orderedInsert]
      rw [filterDomainGroup, hs]
      simp [applyGroupRules]
    have h3 : mergePass [(⟨"KR", "KR", 1, 80, 0⟩ : Domain), ⟨"KR", "KR", 100, 170, 0⟩]
        = .ok [⟨"KR", "KR", 1, 80, 0⟩, ⟨"KR", "KR", 100, 170, 0⟩] := by
      rw [mergePass, mergeLoop]
      norm_num
    have h4 : finalLengthFilter [(⟨"KR", "KR", 1, 80, 0⟩ : Domain), ⟨"KR", "KR", 100, 170, 0⟩]
        = .ok [⟨"KR", "KR", 1, 80, 0⟩, ⟨"KR", "KR", 100, 170, 0⟩] := by
      simp only [finalLengthFilter, show pssmLength "KR" = some 180 from by decide]
      norm_num [Domain.length, exceptOk_bind]
    rw [filterDomains, h1]
    simp only [List.map, h2, h2', h3, exceptOk_bind, h4]

/-- C3 (amended): the merge loop starts at the pair (0, 1) but breaks as
soon as `i + 1` reaches the original length, so with no prior deletion the
final adjacent pair is never examined — a two-element sequence is always
returned untouched (first conjunct).  When a pair it does examine satisfies
the conditions, the first hit's end is extended, the second is removed, and
the same index is re-examined against the new neighbour (second conjunct:
a three-element sequence whose first pair merges and whose merged hit
does not interact with the third). -/
theorem mergePass_examination_order :
    (∀ d1 d2 : Domain, mergePass [d1, d2] = .ok [d1, d2]) ∧
    (∀ d1 d2 d3 : Domain,
      d1.domain = d2.domain →
      detectFragmentedDomain 0.5 0.1 d1 d2 = .ok true →
      d1.domain ≠ d3.domain →
      specialRuleE { d1 with end' := d2.end' } d3 = false →
      mergePass [d1, d2, d3] = .ok [{ d1 with end' := d2.end' }, d3]) := by
  constructor
  · intro d1 d2
    rw [mergePass, mergeLoop]
    norm_num
  · intro d1 d2 d3 hdom hdet hdom3 hrule
    have hbeq : (d1.domain == d2.domain) = true := by
      rw [beq_iff_eq]; exact hdom
    have hbeq3 : ((({ d1 with end' := d2.end' } : Domain).domain == d3.domain)) = false := by
      simp only [beq_eq_false_iff_ne, ne_eq]
      exact hdom3
    have hdet2 : detectFragmentedDomain 0.5 0.1 d1 d2 = Except.ok true := hdet
    norm_num at hdet2
    rw [mergePass, mergeLoop]
    norm_num [List.get_eq_getElem, hbeq]
    rw [hdet2]
    simp only [List.set, List.eraseIdx]
    rw [mergeLoop]
    norm_num [List.get_eq_getElem, hbeq3, specialRules, List.find?, hrule]
    rw [mergeLoop]
    norm_num

/-- Concrete instantiation of `mergePass_examination_order`: the two KR
fragments of `filterDomains_last_pair_unmerged` do merge once a third hit
follows them. -/
theorem mergePass_examination_order_witness :
    mergePass [(⟨"KR", "KR", 1, 80, 0⟩ : Domain), ⟨"KR", "KR", 100, 170, 0⟩]
      = .ok [⟨"KR", "KR", 1, 80, 0⟩, ⟨"KR", "KR", 100, 170, 0⟩] ∧
    mergePass [(⟨"KR", "KR", 1, 80, 0⟩ : Domain), ⟨"KR", "KR", 100, 170, 0⟩,
        ⟨"KS", "PKS_KS", 300, 400, 0⟩]
      = .ok [⟨"KR", "KR", 1, 170, 0⟩, ⟨"KS", "PKS_KS", 300, 400, 0⟩] := by
  constructor
  · exact mergePass_examination_order.1 _ _
  · exact mergePass_examination_order.2
      ⟨"KR", "KR", 1, 80, 0⟩ ⟨"KR", "KR", 100, 170, 0⟩ ⟨"KS", "PKS_KS", 300, 400, 0⟩
      rfl
      (by simp only [detectFragmentedDomain,
            show pssmLength "KR" = some 180 from by decide]
          norm_num [Domain.length])
      (by decide)
      (by decide)

/-- C8 (counterexample): the merge pass is not idempotent.  On
`[C-hit(0,100), C-hit(120,215), E-hit(250,281), KS-hit(400,480)]` the first
run fires the C/E special rule on the middle pair, retypes the second
Condensation hit to E, deletes the E hit, and then advances past it; the
second run fires the same rule again on the pair it never re-examined,
retyping and deleting once more, so the output changes. -/
theorem mergePass_not_idempotent :
    mergePass [(⟨"C", "Condensation", 0, 100, 0⟩ : Domain),
      ⟨"C", "Condensation", 120, 215, 0⟩, ⟨"E", "NRPS-para261", 250, 281, 0⟩,
      ⟨"KS", "PKS_KS", 400, 480, 0⟩]
      = .ok [⟨"C", "Condensation", 0, 100, 0⟩, ⟨"E", "Condensation", 120, 215, 0⟩,
        ⟨"KS", "PKS_KS", 400, 480, 0⟩] ∧
    mergePass [(⟨"C", "Condensation", 0, 100, 0⟩ : Domain),
      ⟨"E", "Condensation", 120, 215, 0⟩, ⟨"KS", "PKS_KS", 400, 480, 0⟩]
      = .ok [⟨"E", "Condensation", 0, 100, 0⟩, ⟨"KS", "PKS_KS", 400, 480, 0⟩] ∧
    [(⟨"E", "Condensation", 0, 100, 0⟩ : Domain), ⟨"KS", "PKS_KS", 400, 480, 0⟩]
      ≠ [⟨"C", "Condensation", 0, 100, 0⟩, ⟨"E", "Condensation", 120, 215, 0⟩,
        ⟨"KS", "PKS_KS", 400, 480, 0⟩] := by
  have hCE : ("C" == "E") = false := by decide
  have hEE : ("E" == "E") = true := by decide
  have hCC : ("C" == "C") = true := by decide
  have hd1 : ¬("Condensation" = "NRPS-para261") := by decide
  have hd2 : ¬("Condensation" = "PKS_KS") := by decide
  refine ⟨?_, ?_, by simp⟩
  · rw [mergePass, mergeLoop]
    norm_num [List.get_eq_getElem, detectFragmentedDomain,
      show pssmLength "Condensation" = some 455 from by decide, Domain.length,
      specialRules, List.find?, specialRuleE, hCE, hEE, hCC, hd1, hd2]
    rw [mergeLoop]
    norm_num [List.get_eq_getElem, specialRules, List.find?, specialRuleE,
      Domain.length, List.set, List.eraseIdx, hCE, hEE, hCC, hd1, hd2]
    rw [mergeLoop]
    norm_num
  · rw [mergePass, mergeLoop]
    norm_num [List.get_eq_getElem, detectFragmentedDomain,
      show pssmLength "Condensation" = some 455 from by decide, Domain.length,
      specialRules, List.find?, specialRuleE, List.set, List.eraseIdx,
      hCE, hEE, hCC, hd1, hd2]
    rw [mergeLoop]
    norm_num

/-- The merge loop only ever deletes elements: a successful run returns a
list no longer than its input. -/
theorem mergeLoop_length_le (total : ℕ) : ∀ (i : ℕ) (l : List Domain),
    ∀ out : List Domain, mergeLoop total i l = .ok out → out.length ≤ l.length := by
  intro i l
  induction i, l using mergeLoop.induct total with
  | case1 i filtered h1 h2 =>
      intro out hout
      rw [mergeLoop, dif_pos h1, if_pos h2] at hout
      cases hout
      exact Nat.le_refl _
  | case2 i filtered h1 h2 hlen hbeq e hdet =>
      intro out hout
      rw [mergeLoop, dif_pos h1, if_neg h2, dif_pos hlen, if_pos hbeq, hdet] at hout
      cases hout
  | case3 i filtered h1 h2 hlen hbeq hdet ih =>
      intro out hout
      rw [mergeLoop, dif_pos h1, if_neg h2, dif_pos hlen, if_pos hbeq, hdet] at hout
      refine (ih out hout).trans ?_
      rw [List.length_eraseIdx]
      simp only [List.length_set]
      rw [if_pos hlen]
      omega
  | case4 i filtered h1 h2 hlen hbeq hdet rule hrule ih =>
      intro out hout
      rw [mergeLoop, dif_pos h1, if_neg h2, dif_pos hlen, if_pos hbeq, hdet, hrule] at hout
      refine (ih out hout).trans ?_
      rw [List.length_eraseIdx]
      simp only [List.length_set]
      rw [if_pos hlen]
      omega
  | case5 i filtered h1 h2 hlen hbeq hdet hrule ih =>
      intro out hout
      rw [mergeLoop, dif_pos h1, if_neg h2, dif_pos hlen, if_pos hbeq, hdet, hrule] at hout
      exact ih out hout
  | case6 i filtered h1 h2 hlen hbeq rule hrule ih =>
      intro out hout
      rw [mergeLoop, dif_pos h1, if_neg h2, dif_pos hlen, if_neg hbeq, hrule] at hout
      refine (ih out hout).trans ?_
      rw [List.length_eraseIdx]
      simp only [List.length_set]
      rw [if_pos hlen]
      omega
  | case7 i filtered h1 h2 hlen hbeq hrule ih =>
      intro out hout
      rw [mergeLoop, dif_pos h1, if_neg h2, dif_pos hlen, if_neg hbeq, hrule] at hout
      exact ih out hout
  | case8 i filtered h1 h2 hlen =>
      intro out hout
      rw [mergeLoop, dif_pos h1, if_neg h2, dif_neg hlen] at hout
      cases hout
  | case9 i filtered h1 =>
      intro out hout
      rw [mergeLoop, dif_neg h1] at hout
      cases hout
      exact Nat.le_refl _

/-- A successful merge-loop run that preserves the length performed no
deletion at all, and therefore no mutation: the output is the input. -/
theorem mergeLoop_eq_of_length (total : ℕ) : ∀ (i : ℕ) (l : List Domain),
    ∀ out : List Domain, mergeLoop total i l = .ok out → out.length = l.length → out = l := by
  intro i l
  induction i, l using mergeLoop.induct total with
  | case1 i filtered h1 h2 =>
      intro out hout _
      rw [mergeLoop, dif_pos h1, if_pos h2] at hout
      cases hout
      rfl
  | case2 i filtered h1 h2 hlen hbeq e hdet =>
      intro out hout _
      rw [mergeLoop, dif_pos h1, if_neg h2, dif_pos hlen, if_pos hbeq, hdet] at hout
      cases hout
  | case3 i filtered h1 h2 hlen hbeq hdet ih =>
      intro out hout heq
      rw [mergeLoop, dif_pos h1, if_neg h2, dif_pos hlen, if_pos hbeq, hdet] at hout
      exfalso
      have hle := mergeLoop_length_le total _ _ out hout
      rw [List.length_eraseIdx] at hle
      simp only [List.length_set] at hle
      rw [if_pos hlen] at hle
      omega
  | case4 i filtered h1 h2 hlen hbeq hdet rule hrule ih =>
      intro out hout heq
      rw [mergeLoop, dif_pos h1, if_neg h2, dif_pos hlen, if_pos hbeq, hdet, hrule] at hout
      exfalso
      have hle := mergeLoop_length_le total _ _ out hout
      rw [List.length_eraseIdx] at hle
      simp only [List.length_set] at hle
      rw [if_pos hlen] at hle
      omega
  | case5 i filtered h1 h2 hlen hbeq hdet hrule ih =>
      intro out hout heq
      rw [mergeLoop, dif_pos h1, if_neg h2, dif_pos hlen, if_pos hbeq, hdet, hrule] at hout
      exact ih out hout heq
  | case6 i filtered h1 h2 hlen hbeq rule hrule ih =>
      intro out hout heq
      rw [mergeLoop, dif_pos h1, if_neg h2, dif_pos hlen, if_neg hbeq, hrule] at hout
      exfalso
      have hle := mergeLoop_length_le total _ _ out hout
      rw [List.length_eraseIdx] at hle
      simp only [List.length_set] at hle
      rw [if_pos hlen] at hle
      omega
  | case7 i filtered h1 h2 hlen hbeq hrule ih =>
      intro out hout heq
      rw [mergeLoop, dif_pos h1, if_neg h2, dif_pos hlen, if_neg hbeq, hrule] at hout
      exact ih out hout heq
  | case8 i filtered h1 h2 hlen =>
      intro out hout _
      rw [mergeLoop, dif_pos h1, if_neg h2, dif_neg hlen] at hout
      cases hout
  | case9 i filtered h1 =>
      intro out hout _
      rw [mergeLoop, dif_neg h1] at hout
      cases hout
      rfl

/-- C8 (amended): the merge pass is idempotent on every run that deletes
nothing — the output then equals the input, and a second run returns it
unchanged.  (When a deletion does occur idempotence can fail; see the
counterexample, where a special-rule retype fires again on re-run.) -/
theorem mergePass_idempotent_without_deletion (xs ys : List Domain)
    (h : mergePass xs = .ok ys) (hlen : ys.length = xs.length) :
    mergePass ys = .ok ys := by
  have heq : ys = xs := mergeLoop_eq_of_length xs.length 1 xs ys h hlen
  rw [heq] at h ⊢
  exact h

/-- Concrete instantiation of `mergePass_idempotent_without_deletion` on a
three-hit list on which the pass takes no action. -/
theorem mergePass_idempotent_without_deletion_witness :
    mergePass [(⟨"C", "Condensation", 0, 100, 0⟩ : Domain),
      ⟨"KS", "PKS_KS", 400, 480, 0⟩, ⟨"A", "A_NRPS", 600, 700, 0⟩]
      = .ok [⟨"C", "Condensation", 0, 100, 0⟩, ⟨"KS", "PKS_KS", 400, 480, 0⟩,
        ⟨"A", "A_NRPS", 600, 700, 0⟩] := by
  have h : mergePass [(⟨"C", "Condensation", 0, 100, 0⟩ : Domain),
      ⟨"KS", "PKS_KS", 400, 480, 0⟩, ⟨"A", "A_NRPS", 600, 700, 0⟩]
      = .ok [⟨"C", "Condensation", 0, 100, 0⟩, ⟨"KS", "PKS_KS", 400, 480, 0⟩,
        ⟨"A", "A_NRPS", 600, 700, 0⟩] := by
    rw [mergePass, mergeLoop]
    norm_num [List.get_eq_getElem, specialRules, List.find?, specialRuleE,
      Domain.length, show ¬("Condensation" = "PKS_KS") from by decide,
      show ("KS" == "E") = false from by decide]
    rw [mergeLoop]
    norm_num
  exact mergePass_idempotent_without_deletion _ _ h (by simp)

/-! ### Overlap freedom of the resolved hit list -/

/-- C4 (counterexample): the resolved list can contain two hits that
overlap above the threshold.  Group one is {KR(0,100) e=1, KR(10,110) e=0};
its representative is the *lower-e-value* member KR(10,110), not the fixed
first member KR(0,100) against which the neighbouring ACP(102,120) hit was
tested for group membership; the representative and the ACP hit overlap by
8 residues, which exceeds 20% of the smaller hit's length (3.6). -/
theorem filterDomains_output_overlaps :
    filterDomains [⟨"KR", "KR", 0, 100, 1⟩, ⟨"KR", "KR", 10, 110, 0⟩,
      ⟨"ACP", "PP-binding", 102, 120, 0⟩]
      = .ok [⟨"KR", "KR", 10, 110, 0⟩, ⟨"ACP", "PP-binding", 102, 120, 0⟩] ∧
    hitsOverlap 0.2 ⟨"KR", "KR", 10, 110, 0⟩ ⟨"ACP", "PP-binding", 102, 120, 0⟩
      = true := by
  constructor
  · have h1 : groupOverlappingHits 0.2 [⟨"KR", "KR", 0, 100, 1⟩, ⟨"KR", "KR", 10, 110, 0⟩,
        ⟨"ACP", "PP-binding", 102, 120, 0⟩]
        = [[⟨"KR", "KR", 0, 100, 1⟩, ⟨"KR", "KR", 10, 110, 0⟩],
           [⟨"ACP", "PP-binding", 102, 120, 0⟩]] := by
      norm_num [groupOverlappingHits, sortStart, List.insertionSort,
        List.orderedInsert, startLe, groupLoop, hitsOverlap, List.takeWhile,
        List.dropWhile]
    have h2 : filterDomainGroup [(⟨"KR", "KR", 0, 100, 1⟩ : Domain), ⟨"KR", "KR", 10, 110, 0⟩]
        = ⟨"KR", "KR", 10, 110, 0⟩ := by
      have hs : sortEvalue [(⟨"KR", "KR", 0, 100, 1⟩ : Domain), ⟨"KR", "KR", 10, 110, 0⟩]
          = [⟨"KR", "KR", 10, 110, 0⟩, ⟨"KR", "KR", 0, 100, 1⟩] := by
        norm_num [sortEvalue, List.insertionSort, List.orderedInsert, evalueLe]
      rw [filterDomainGroup, hs]
      norm_num [applyGroupRules, specialRules, List.find?, specialRuleE,
        Domain.length, show ("KR" == "C") = false from by decide]
    have h3 : filterDomainGroup [(⟨"ACP", "PP-binding", 102, 120, 0⟩ : Domain)]
        = ⟨"ACP", "PP-binding", 102, 120, 0⟩ := by
      have hs : sortEvalue [(⟨"ACP", "PP-binding", 102, 120, 0⟩ : Domain)]
          = [⟨"ACP", "PP-binding", 102, 120, 0⟩] := by
        norm_num [sortEvalue, List.insertionSort, List.orderedInsert]
      rw [filterDomainGroup, hs]
      simp [applyGroupRules]
    have h4 : mergePass [(⟨"KR", "KR", 10, 110, 0⟩ : Domain),
        ⟨"ACP", "PP-binding", 102, 120, 0⟩]
        = .ok [⟨"KR", "KR", 10, 110, 0⟩, ⟨"ACP", "PP-binding", 102, 120, 0⟩] := by
      rw [mergePass, mergeLoop]
      norm_num
    have h5 : finalLengthFilter [(⟨"KR", "KR", 10, 110, 0⟩ : Domain),
        ⟨"ACP", "PP-binding", 102, 120, 0⟩]
        = .ok [⟨"KR", "KR", 10, 110, 0⟩, ⟨"ACP", "PP-binding", 102, 120, 0⟩] := by
      simp only [finalLengthFilter, show pssmLength "KR" = some 180 from by decide,
        show pssmLength "PP-binding" = some 67 from by decide]
      norm_num [Domain.length, exceptOk_bind]
    rw [filterDomains, h1]
    simp only [List.map, h2, h3, h4, exceptOk_bind, h5]
  · norm_num [hitsOverlap]

/-- Unfolding of `hits_overlap = False` into the two strict rational
inequalities. -/
theorem hitsOverlap_false_iff (thr : ℚ) (a b : Domain) :
    hitsOverlap thr a b = false ↔
      ((max 0 (min a.end' b.end' - max a.start b.start) : ℤ) : ℚ)
          < thr * ((a.end' - a.start : ℤ) : ℚ) ∧
      ((max 0 (min a.end' b.end' - max a.start b.start) : ℤ) : ℚ)
          < thr * ((b.end' - b.start : ℤ) : ℚ) := by
  simp [hitsOverlap, not_le]

/-- The head of `dropWhile p l`, when it exists, fails `p`. -/
theorem dropWhileHead_false {α : Type} (p : α → Bool) :
    ∀ (l : List α) (y : α), (l.dropWhile p).head? = some y → p y = false := by
  intro l
  induction l with
  | nil => intro y h; simp [List.dropWhile] at h
  | cons a l ih =>
      intro y h
      rw [List.dropWhile_cons] at h
      by_cases hp : p a = true
      · rw [if_pos hp] at h
        exact ih y h
      · rw [if_neg hp] at h
        simp only [List.head?_cons, Option.some.injEq] at h
        subst h
        simpa using hp

/-- A later-starting, positive-length hit that does not overlap `x` (at a
threshold at most 1) must end strictly beyond `x`: otherwise its whole span
would lie inside `x` and count as overlap. -/
theorem end_lt_of_nonoverlap (thr : ℚ) (hthr : thr ≤ 1) (x z : Domain)
    (hs : x.start ≤ z.start) (hz : 0 < z.length)
    (h : hitsOverlap thr x z = false) : x.end' < z.end' := by
  rw [hitsOverlap_false_iff] at h
  by_contra hc
  push_neg at hc
  rw [min_eq_right hc, max_eq_right hs] at h
  have h3 : max 0 (z.end' - z.start) = z.end' - z.start := by
    rw [Domain.length] at hz
    omega
  rw [h3] at h
  have h4 : thr * ((z.end' - z.start : ℤ) : ℚ) ≤ ((z.end' - z.start : ℤ) : ℚ) := by
    apply mul_le_of_le_one_left _ hthr
    rw [Domain.length] at hz
    have : (0 : ℤ) ≤ z.end' - z.start := by omega
    exact_mod_cast this
  have := h.2
  linarith

/-- Chained non-overlap: if `x` does not overlap `z`, and `z` does not
overlap the even-later hit `w`, then `x` does not overlap `w` (starts
ordered, `z` of positive length, threshold at most 1). -/
theorem nonoverlap_trans (thr : ℚ) (hthr : thr ≤ 1) (x z w : Domain)
    (hxzs : x.start ≤ z.start) (hzws : z.start ≤ w.start)
    (hzlen : 0 < z.length)
    (hxz : hitsOverlap thr x z = false) (hzw : hitsOverlap thr z w = false) :
    hitsOverlap thr x w = false := by
  have hxez : x.end' < z.end' := end_lt_of_nonoverlap thr hthr x z hxzs hzlen hxz
  rw [hitsOverlap_false_iff] at hxz hzw ⊢
  have b1 : max 0 (min x.end' w.end' - max x.start w.start)
      ≤ max 0 (min x.end' z.end' - max x.start z.start) := by omega
  have b2 : max 0 (min x.end' w.end' - max x.start w.start)
      ≤ max 0 (min z.end' w.end' - max z.start w.start) := by omega
  have b1q : ((max 0 (min x.end' w.end' - max x.start w.start) : ℤ) : ℚ)
      ≤ ((max 0 (min x.end' z.end' - max x.start z.start) : ℤ) : ℚ) := by exact_mod_cast b1
  have b2q : ((max 0 (min x.end' w.end' - max x.start w.start) : ℤ) : ℚ)
      ≤ ((max 0 (min z.end' w.end' - max z.start w.start) : ℤ) : ℚ) := by exact_mod_cast b2
  exact ⟨lt_of_le_of_lt b1q hxz.1, lt_of_le_of_lt b2q hzw.2⟩

/-- Every group head produced from a sorted suffix whose first element
does not overlap `x` is itself non-overlapping with `x`. -/
theorem groupLoop_heads_far (thr : ℚ) (hthr : thr ≤ 1) :
    ∀ l : List Domain, l.Pairwise startLe → (∀ d ∈ l, 0 < d.length) →
    ∀ x : Domain, (∀ d ∈ l, x.start ≤ d.start) →
    (∀ z, l.head? = some z → hitsOverlap thr x z = false) →
    ∀ y ∈ (groupLoop thr l).map (fun g => g.headI), hitsOverlap thr x y = false := by
  intro l
  induction l using groupLoop.induct thr with
  | case1 =>
      intro _ _ x _ _ y hy
      simp [groupLoop] at hy
  | case2 z rest ih =>
      intro hsort hlen x hxs hhead y hy
      rw [groupLoop] at hy
      simp only [List.map_cons, List.mem_cons, List.headI] at hy
      cases hy with
      | inl hy =>
          subst hy
          exact hhead y rfl
      | inr hy =>
          have hsrest : rest.Pairwise startLe := (List.pairwise_cons.mp hsort).2
          have hzrest : ∀ d ∈ rest, startLe z d := (List.pairwise_cons.mp hsort).1
          have hsub : (rest.dropWhile (fun y => hitsOverlap thr z y)).Sublist rest :=
            List.dropWhile_sublist _
          refine ih (List.Pairwise.sublist hsub hsrest)
            (fun d hd => hlen d (List.mem_cons_of_mem z (hsub.subset hd)))
            x (fun d hd => hxs d (List.mem_cons_of_mem z (hsub.subset hd)))
            ?_ y hy
          intro w hw
          have hzw : hitsOverlap thr z w = false :=
            dropWhileHead_false (fun y => hitsOverlap thr z y) rest w hw
          have hwrest : w ∈ rest := by
            refine hsub.subset ?_
            revert hw
            cases hdw : rest.dropWhile (fun y => hitsOverlap thr z y) with
            | nil => intro hw; simp at hw
            | cons a t =>
                intro hw
                simp only [List.head?_cons, Option.some.injEq] at hw
                rw [← hw]
                exact List.mem_cons_self a t
          exact nonoverlap_trans thr hthr x z w
            (hxs z (List.mem_cons_self z rest)) (hzrest w hwrest)
            (hlen z (List.mem_cons_self z rest))
            (hhead z rfl) hzw

/-- On a start-sorted list of positive-length hits, the first members of
the groups produced by the grouping loop are pairwise non-overlapping. -/
theorem groupLoop_heads_pairwise (thr : ℚ) (hthr : thr ≤ 1) :
    ∀ l : List Domain, l.Pairwise startLe → (∀ d ∈ l, 0 < d.length) →
    ((groupLoop thr l).map (fun g => g.headI)).Pairwise
      (fun a b => hitsOverlap thr a b = false) := by
  intro l
  induction l using groupLoop.induct thr with
  | case1 =>
      intro _ _
      simp [groupLoop]
  | case2 z rest ih =>
      intro hsort hlen
      rw [groupLoop]
      simp only [List.map_cons, List.headI]
      rw [List.pairwise_cons]
      have hsrest : rest.Pairwise startLe := (List.pairwise_cons.mp hsort).2
      have hzrest : ∀ d ∈ rest, startLe z d := (List.pairwise_cons.mp hsort).1
      have hsub : (rest.dropWhile (fun y => hitsOverlap thr z y)).Sublist rest :=
        List.dropWhile_sublist _
      constructor
      · refine groupLoop_heads_far thr hthr _ (List.Pairwise.sublist hsub hsrest)
          (fun d hd => hlen d (List.mem_cons_of_mem z (hsub.subset hd)))
          z (fun d hd => hzrest d (hsub.subset hd)) ?_
        intro w hw
        exact dropWhileHead_false (fun y => hitsOverlap thr z y) rest w hw
      · exact ih (List.Pairwise.sublist hsub hsrest)
          (fun d hd => hlen d (List.mem_cons_of_mem z (hsub.subset hd)))

/-- C4 (amended): the pairwise overlap-freedom that `filter_domains` does
guarantee concerns the fixed first members ("current" references) of the
overlap groups: for positive-length hits these are pairwise non-overlapping
at any threshold at most 1.  The representatives actually returned are the
lowest-e-value members and can overlap (see the counterexample). -/
theorem groupOverlappingHits_firsts_nonoverlapping (threshold : ℚ)
    (hthr : threshold ≤ 1) (domains : List Domain)
    (hpos : ∀ d ∈ domains, 0 < d.length) :
    ((groupOverlappingHits threshold domains).map (fun g => g.headI)).Pairwise
      (fun a b => hitsOverlap threshold a b = false) := by
  refine groupLoop_heads_pairwise threshold hthr (sortStart domains) ?_ ?_
  · exact List.sorted_insertionSort startLe domains
  · intro d hd
    exact hpos d ((List.perm_insertionSort startLe domains).subset hd)

/-- Concrete instantiation of `groupOverlappingHits_firsts_nonoverlapping`
on the counterexample input of `filterDomains_output_overlaps`. -/
theorem groupOverlappingHits_firsts_nonoverlapping_witness :
    ((groupOverlappingHits 0.2 [⟨"KR", "KR", 0, 100, 1⟩, ⟨"KR", "KR", 10, 110, 0⟩,
        ⟨"ACP", "PP-binding", 102, 120, 0⟩]).map (fun g => g.headI)).Pairwise
      (fun a b => hitsOverlap 0.2 a b = false) :=
  groupOverlappingHits_firsts_nonoverlapping 0.2 (by norm_num) _ (by
    intro d hd
    simp only [List.mem_cons, List.not_mem_nil, or_false] at hd
    rcases hd with rfl | rfl | rfl <;> norm_num [Domain.length])

/-- `digitChar10` always yields a decimal digit character. -/
theorem digitChar10_mem (d : ℕ) : digitChar10 d ∈ digitList := by
  rw [digitChar10]
  split_ifs <;> decide

/-- Every character of a decimal numeral is a digit. -/
theorem natChars_mem_digit (n : ℕ) : ∀ c ∈ natChars n, c ∈ digitList := by
  induction n using natChars.induct with
  | case1 n h =>
      intro c hc
      rw [natChars, dif_pos h] at hc
      rw [List.mem_singleton] at hc
      subst hc
      exact digitChar10_mem n
  | case2 n h ih =>
      intro c hc
      rw [natChars, dif_neg h] at hc
      rw [List.mem_append] at hc
      cases hc with
      | inl hc => exact ih c hc
      | inr hc =>
          rw [List.mem_singleton] at hc
          subst hc
          exact digitChar10_mem _

/-- Decimal numerals are never empty. -/
theorem natChars_ne_nil (n : ℕ) : natChars n ≠ [] := by
  rw [natChars]
  split_ifs with h
  · simp
  · simp [natChars_ne_nil (n / 10)]

/-- For an index of 2 or more, the numeral is neither "0" nor "1". -/
theorem natChars_ne_single (i : ℕ) (hi : 2 ≤ i) :
    natChars i ≠ ['0'] ∧ natChars i ≠ ['1'] := by
  by_cases h : i < 10
  · rw [natChars, dif_pos h]
    interval_cases i <;> simp [digitChar10]
  · rw [natChars, dif_neg h]
    have hne : 1 ≤ (natChars (i / 10)).length :=
      List.length_pos.mpr (natChars_ne_nil (i / 10))
    constructor <;> intro hc <;> (
      have hl := congrArg List.length hc
      simp only [List.length_append, List.length_singleton, List.length_cons,
        List.length_nil] at hl
      omega)

/-- A pattern whose head differs from the first character is no prefix. -/
theorem isPrefixOf_false_of_head_ne (p : Char) (ps : List Char) (c : Char)
    (l : List Char) (hne : p ≠ c) : (p :: ps).isPrefixOf (c :: l) = false := by
  simp [List.isPrefixOf, hne]

/-- `str.replace` walks past a position where the pattern does not match. -/
theorem listReplace_cons_no_match (pat rep : List Char) (c : Char) (l : List Char)
    (h : pat.isPrefixOf (c :: l) = false) :
    listReplace pat rep (c :: l) = c :: listReplace pat rep l := by
  rw [listReplace, if_neg]
  intro hc
  rw [h] at hc
  exact absurd hc.1 (by simp)

/-- Replacing any digit numeral other than "0" or "1" inside "0 and 1" is a
no-op: no such numeral occurs in it. -/
theorem listReplace_digits_noop (pat rep : List Char)
    (hd : ∀ c ∈ pat, c ∈ digitList) (hne : pat ≠ [])
    (h0 : pat ≠ ['0']) (h1 : pat ≠ ['1']) :
    listReplace pat rep ['0', ' ', 'a', 'n', 'd', ' ', '1']
      = ['0', ' ', 'a', 'n', 'd', ' ', '1'] := by
  rcases pat with _ | ⟨p, ps⟩
  · exact absurd rfl hne
  have hp : p ∈ digitList := hd p (List.mem_cons_self p ps)
  have hstep : ∀ (c : Char) (l : List Char), c ∉ digitList →
      listReplace (p :: ps) rep (c :: l) = c :: listReplace (p :: ps) rep l := by
    intro c l hc
    apply listReplace_cons_no_match
    apply isPrefixOf_false_of_head_ne
    intro he
    exact hc (he ▸ hp)
  have hpre0 : (p :: ps).isPrefixOf ['0', ' ', 'a', 'n', 'd', ' ', '1'] = false := by
    by_cases hp0 : p = '0'
    · subst hp0
      rcases ps with _ | ⟨q, qs⟩
      · exact absurd rfl h0
      · have hq : q ∈ digitList := hd q (by simp)
        have : q ≠ ' ' := by intro he; rw [he] at hq; simp [digitList] at hq
        simp [List.isPrefixOf, this]
    · exact isPrefixOf_false_of_head_ne p ps '0' _ hp0
  have hpre6 : (p :: ps).isPrefixOf ['1'] = false := by
    by_cases hp1 : p = '1'
    · subst hp1
      rcases ps with _ | ⟨q, qs⟩
      · exact absurd rfl h1
      · simp [List.isPrefixOf]
    · exact isPrefixOf_false_of_head_ne p ps '1' _ hp1
  rw [listReplace_cons_no_match _ _ _ _ hpre0]
  rw [hstep ' ' _ (by decide), hstep 'a' _ (by decide), hstep 'n' _ (by decide),
    hstep 'd' _ (by decide), hstep ' ' _ (by decide)]
  rw [listReplace_cons_no_match _ _ _ _ hpre6]
  rw [listReplace]

/-- Substituting a condition at index 2 or higher leaves "0 and 1"
unchanged. -/
theorem pyReplace_noop_ge2 (i : ℕ) (hi : 2 ≤ i) (rep : String) :
    pyReplace "0 and 1" (natStr i) rep = "0 and 1" := by
  rw [pyReplace, natStr]
  have h := listReplace_digits_noop (natChars i) rep.data (natChars_mem_digit i)
    (natChars_ne_nil i) (natChars_ne_single i hi).1 (natChars_ne_single i hi).2
  show String.mk (listReplace (natChars i) rep.data "0 and 1".data) = "0 and 1"
  rw [show "0 and 1".data = ['0', ' ', 'a', 'n', 'd', ' ', '1'] from rfl, h]

/-- `str(1)`. -/
theorem natStrOne : natStr 1 = "1" := by
  simp [natStr, natChars, digitChar10]

/-- `str(0)`. -/
theorem natStrZero : natStr 0 = "0" := by
  simp [natStr, natChars, digitChar10]

/-- Lift a character-level replacement computation to strings. -/
theorem pyReplace_concrete (s pat rep out : String)
    (h : listReplace pat.data rep.data s.data = out.data) :
    pyReplace s pat rep = out := by
  rw [pyReplace, h]

/-- Substituting True at position 1 of "0 and 1". -/
theorem pyRep1T : pyReplace "0 and 1" "1" "True" = "0 and True" := by
  apply pyReplace_concrete
  show listReplace ['1'] ['T', 'r', 'u', 'e'] ['0', ' ', 'a', 'n', 'd', ' ', '1'] = ['0', ' ', 'a', 'n', 'd', ' ', 'T', 'r', 'u', 'e']
  simp [listReplace, List.isPrefixOf]

/-- Substituting False at position 1 of "0 and 1". -/
theorem pyRep1F : pyReplace "0 and 1" "1" "False" = "0 and False" := by
  apply pyReplace_concrete
  show listReplace ['1'] ['F', 'a', 'l', 's', 'e'] ['0', ' ', 'a', 'n', 'd', ' ', '1'] = ['0', ' ', 'a', 'n', 'd', ' ', 'F', 'a', 'l', 's', 'e']
  simp [listReplace, List.isPrefixOf]

/-- Substituting True at position 0 of "0 and True". -/
theorem pyRep0TT : pyReplace "0 and True" "0" "True" = "True and True" := by
  apply pyReplace_concrete
  show listReplace ['0'] ['T', 'r', 'u', 'e'] ['0', ' ', 'a', 'n', 'd', ' ', 'T', 'r', 'u', 'e'] = ['T', 'r', 'u', 'e', ' ', 'a', 'n', 'd', ' ', 'T', 'r', 'u', 'e']
  simp [listReplace, List.isPrefixOf]

/-- Substituting False at position 0 of "0 and True". -/
theorem pyRep0FT : pyReplace "0 and True" "0" "False" = "False and True" := by
  apply pyReplace_concrete
  show listReplace ['0'] ['F', 'a', 'l', 's', 'e'] ['0', ' ', 'a', 'n', 'd', ' ', 'T', 'r', 'u', 'e'] = ['F', 'a', 'l', 's', 'e', ' ', 'a', 'n', 'd', ' ', 'T', 'r', 'u', 'e']
  simp [listReplace, List.isPrefixOf]

/-- Substituting True at position 0 of "0 and False". -/
theorem pyRep0TF : pyReplace "0 and False" "0" "True" = "True and False" := by
  apply pyReplace_concrete
  show listReplace ['0'] ['T', 'r', 'u', 'e'] ['0', ' ', 'a', 'n', 'd', ' ', 'F', 'a', 'l', 's', 'e'] = ['T', 'r', 'u', 'e', ' ', 'a', 'n', 'd', ' ', 'F', 'a', 'l', 's', 'e']
  simp [listReplace, List.isPrefixOf]

/-- Substituting False at position 0 of "0 and False". -/
theorem pyRep0FF : pyReplace "0 and False" "0" "False" = "False and False" := by
  apply pyReplace_concrete
  show listReplace ['0'] ['F', 'a', 'l', 's', 'e'] ['0', ' ', 'a', 'n', 'd', ' ', 'F', 'a', 'l', 's', 'e'] = ['F', 'a', 'l', 's', 'e', ' ', 'a', 'n', 'd', ' ', 'F', 'a', 'l', 's', 'e']
  simp [listReplace, List.isPrefixOf]

/-- Indices produced by `enumerate` starting at `i` are at least `i`. -/
theorem pyEnum_fst_ge : ∀ (l : List Bool) (i : ℕ) (p : ℕ × Bool),
    p ∈ pyEnum i l → i ≤ p.1 := by
  intro l
  induction l with
  | nil => intro i p hp; simp [pyEnum] at hp
  | cons c cs ih =>
      intro i p hp
      rw [pyEnum, List.mem_cons] at hp
      cases hp with
      | inl hp => subst hp; exact Nat.le_refl i
      | inr hp => exact Nat.le_of_succ_le (ih (i + 1) p hp)

/-- The substitution fold over indices 2 and higher is the identity on
"0 and 1". -/
theorem foldl_subst_noop : ∀ (L : List (ℕ × Bool)), (∀ p ∈ L, 2 ≤ p.1) →
    L.foldl (fun s p => pyReplace s (natStr p.1) (pyBoolStr p.2)) "0 and 1"
      = "0 and 1" := by
  intro L
  induction L with
  | nil => intro _; rfl
  | cons q L ih =>
      intro hge
      rw [List.foldl_cons,
        pyReplace_noop_ge2 q.1 (hge q (List.mem_cons_self q L)) (pyBoolStr q.2)]
      exact ih (fun p hp => hge p (List.mem_cons_of_mem q hp))

/-- The full substitution of "0 and 1": only positions 1 and then 0 fire,
yielding the two boolean literals joined by `and`. -/
theorem substitute_01 (c0 c1 : Bool) (rest : List Bool) :
    substituteConditions "0 and 1" (c0 :: c1 :: rest)
      = (pyBoolStr c0) ++ " and " ++ (pyBoolStr c1) := by
  rw [substituteConditions]
  rw [show pyEnum 0 (c0 :: c1 :: rest) = (0, c0) :: (1, c1) :: pyEnum 2 rest from rfl]
  rw [show ((0, c0) :: (1, c1) :: pyEnum 2 rest).reverse
      = (pyEnum 2 rest).reverse ++ [(1, c1), (0, c0)] from by simp]
  rw [List.foldl_append]
  rw [foldl_subst_noop (pyEnum 2 rest).reverse
    (fun p hp => pyEnum_fst_ge rest 2 p (List.mem_reverse.mp hp))]
  cases c0 <;> cases c1 <;>
    simp only [List.foldl_cons, List.foldl_nil, pyBoolStr, if_true, if_false,
      Bool.false_eq_true, natStrOne, natStrZero, pyRep1T, pyRep1F, pyRep0TT,
      pyRep0FT, pyRep0TF, pyRep0FF] <;> rfl

/-- The index track of `enumerate` is an arithmetic range. -/
theorem pyEnum_map_fst : ∀ (l : List Bool) (i : ℕ),
    (pyEnum i l).map Prod.fst = List.range' i l.length := by
  intro l
  induction l with
  | nil => intro i; rfl
  | cons c cs ih =>
      intro i
      rw [pyEnum, List.map_cons, ih (i + 1), List.length_cons, List.range'_succ]

/-- C6: for a rule with evaluator "0 and 1" and 11 or more positional
condition booleans, `Rule.evaluate` substitutes every index from the
highest down to the lowest — in particular index 10 strictly before index 1
(the `[10, 1]` subsequence of the substitution order, final conjunct) — and
returns exactly the conjunction of conditions 0 and 1. -/
theorem rule_evaluate_positional (r : Rule) (conds : List Bool)
    (he : r.evaluator = "0 and 1") (hn : 11 ≤ conds.length) :
    r.evaluate conds = some (conds.headI && conds.tail.headI) ∧
    List.Sublist [10, 1] (((pyEnum 0 conds).reverse.map Prod.fst)) := by
  rcases conds with _ | ⟨c0, _ | ⟨c1, rest⟩⟩
  · simp at hn
  · simp at hn
  constructor
  · rw [Rule.evaluate, he, substitute_01]
    rw [show (c0 :: c1 :: rest).headI = c0 from rfl,
      show (c0 :: c1 :: rest).tail.headI = c1 from rfl]
    cases c0 <;> cases c1 <;> simp only [pyBoolStr, if_true, if_false] <;> decide
  · rw [List.map_reverse, pyEnum_map_fst]
    obtain ⟨k, hk⟩ : ∃ k, (c0 :: c1 :: rest).length = 11 + k := by
      refine ⟨(c0 :: c1 :: rest).length - 11, ?_⟩
      simp only [List.length_cons] at hn ⊢
      omega
    rw [hk, show 11 + k = k + 11 from Nat.add_comm 11 k,
      ← List.range'_append 0 11 k 1, List.reverse_append]
    refine List.sublist_append_of_sublist_right ?_
    rw [show (List.range' 0 11).reverse = [10, 9, 8, 7, 6, 5, 4, 3, 2, 1, 0] from by decide]
    exact List.Sublist.cons₂ 10 (List.singleton_sublist.mpr (by decide))

/-- Concrete instantiation of `rule_evaluate_positional` on an 11-condition
vector. -/
theorem rule_evaluate_positional_witness :
    Rule.evaluate ⟨"DSL", [], [], [], "0 and 1"⟩
      [true, true, false, false, false, false, false, false, false, false, false]
      = some true := by
  have h := (rule_evaluate_positional ⟨"DSL", [], [], [], "0 and 1"⟩
    [true, true, false, false, false, false, false, false, false, false, false]
    rfl (by norm_num)).1
  simpa using h

/-- `Domain.__eq__` unfolded to propositional equalities of the four
compared fields. -/
theorem Domain.pyEq_iff (a b : Domain) :
    a.pyEq b = true ↔
      (a.type = b.type ∧ a.domain = b.domain ∧ a.start = b.start ∧ a.end' = b.end') := by
  simp [Domain.pyEq, and_assoc]

/-- `Domain.__eq__` is reflexive. -/
theorem Domain.pyEq_refl (a : Domain) : a.pyEq a = true := by
  simp [Domain.pyEq]

/-- Two hits `__eq__`-equal to a common hit are `__eq__`-equal. -/
theorem Domain.pyEq_trans_left (e d1 d2 : Domain) (h1 : e.pyEq d1 = true)
    (h2 : e.pyEq d2 = true) : d1.pyEq d2 = true := by
  rw [Domain.pyEq_iff] at h1 h2 ⊢
  obtain ⟨a1, b1, c1, e1⟩ := h1
  obtain ⟨a2, b2, c2, e2⟩ := h2
  exact ⟨a1.symm.trans a2, b1.symm.trans b2, c1.symm.trans c2, e1.symm.trans e2⟩

/-- If some hit of the required type passes the family filter and is
unclaimed (no `seen` entry is `__eq__`-equal to it), the scan of
`satisfied_by` finds one. -/
theorem findMatch_ne_none (r : Rule) (t : String) :
    ∀ (l : List Domain) (seen : List Domain),
    (∃ d ∈ l, (seen.any fun s => s.pyEq d) = false ∧ d.type = t ∧ r.validFamily d = true) →
    r.findMatch seen t l ≠ none := by
  intro l
  induction l with
  | nil => intro seen h; simp at h
  | cons a l ih =>
      intro seen h
      rw [Rule.findMatch]
      by_cases hseen : (seen.any fun s => s.pyEq a) = true
      · rw [if_pos hseen]
        apply ih
        obtain ⟨d, hd, hns, ht, hv⟩ := h
        rw [List.mem_cons] at hd
        cases hd with
        | inl hd =>
            subst hd
            rw [hseen] at hns
            exact absurd hns (by decide)
        | inr hd => exact ⟨d, hd, hns, ht, hv⟩
      · rw [if_neg hseen]
        by_cases hc : (a.type == t && r.validFamily a) = true
        · rw [if_pos hc]
          simp
        · rw [if_neg hc]
          apply ih
          obtain ⟨d, hd, hns, ht, hv⟩ := h
          rw [List.mem_cons] at hd
          cases hd with
          | inl hd =>
              subst hd
              exact absurd (by rw [ht, hv]; simp) hc
          | inr hd => exact ⟨d, hd, hns, ht, hv⟩

/-- C7: each requirement scans for the first hit not yet claimed, where
claiming is membership in `seen` under `Domain.__eq__` (type, domain,
start, end).  A rule listing a type twice records true for both
requirements whenever the hit list contains two `__eq__`-distinct hits of
that type passing the rule's family filter; but a claimed hit can never
satisfy a second requirement: when the only other hit of the type
duplicates the claimed one in all four compared fields (even with a
different e-value), the second requirement records false. -/
theorem rule_conditions_multiplicity (r : Rule) (t : String) (hits : List Domain)
    (hdoms : r.domains = [t, t]) (d1 d2 : Domain)
    (h1 : d1 ∈ hits) (h2 : d2 ∈ hits) (hne : d1.pyEq d2 = false)
    (ht1 : d1.type = t) (ht2 : d2.type = t)
    (hv1 : r.validFamily d1 = true) (hv2 : r.validFamily d2 = true)
    (e1 e2 : Domain) (he1 : e1.type = t) (_he2 : e2.type = t)
    (hw1 : r.validFamily e1 = true) (_hw2 : r.validFamily e2 = true)
    (heq : e1.pyEq e2 = true) :
    r.conditions hits = [true, true] ∧ r.conditions [e1, e2] = [true, false] := by
  constructor
  · have hm1 : r.findMatch [] t hits ≠ none :=
      findMatch_ne_none r t hits [] ⟨d1, h1, by simp, ht1, hv1⟩
    cases he : r.findMatch [] t hits with
    | none => exact absurd he hm1
    | some e =>
        have hm2 : r.findMatch [e] t hits ≠ none := by
          apply findMatch_ne_none
          by_cases hde : e.pyEq d1 = true
          · refine ⟨d2, h2, ?_, ht2, hv2⟩
            simp only [List.any_cons, List.any_nil, Bool.or_false]
            cases hx : e.pyEq d2 with
            | false => rfl
            | true =>
                exact absurd (Domain.pyEq_trans_left e d1 d2 hde hx) (by simp [hne])
          · refine ⟨d1, h1, ?_, ht1, hv1⟩
            simp only [List.any_cons, List.any_nil, Bool.or_false]
            cases hx : e.pyEq d1 with
            | false => rfl
            | true => exact absurd hx hde
        cases he2 : r.findMatch [e] t hits with
        | none => exact absurd he2 hm2
        | some e2' =>
            rw [Rule.conditions, hdoms, Rule.conditionsGo, he]
            show true :: r.conditionsGo hits [t] [e] = [true, true]
            rw [Rule.conditionsGo, he2]
            show true :: true :: r.conditionsGo hits [] ([e] ++ [e2']) = [true, true]
            rw [show r.conditionsGo hits [] ([e] ++ [e2']) = [] from rfl]
  · have hf1 : r.findMatch [] t [e1, e2] = some e1 := by
      rw [Rule.findMatch]
      simp [he1, hw1]
    have hf2 : r.findMatch [e1] t [e1, e2] = none := by
      rw [Rule.findMatch]
      rw [if_pos (by simp [Domain.pyEq_refl] : (([e1]).any fun s => s.pyEq e1) = true)]
      rw [Rule.findMatch]
      rw [if_pos (by simp [heq] : (([e1]).any fun s => s.pyEq e2) = true)]
      rfl
    rw [Rule.conditions, hdoms, Rule.conditionsGo, hf1]
    show true :: r.conditionsGo [e1, e2] [t] [e1] = [true, false]
    rw [Rule.conditionsGo, hf2]
    show true :: false :: r.conditionsGo [e1, e2] [] [e1] = [true, false]
    rw [show r.conditionsGo [e1, e2] [] [e1] = [] from rfl]

/-- Concrete instantiation of `rule_conditions_multiplicity`: a
two-KS-domain rule records both requirements met against two
`__eq__`-distinct KS hits, but when the second KS hit duplicates the first
in all four compared fields (here differing only in the e-value), the
claimed hit cannot satisfy the second requirement and false is recorded. -/
theorem rule_conditions_multiplicity_witness :
    Rule.conditions ⟨"multi-modular PKS", [], ["KS", "KS"], [], "0 and 1"⟩
      [⟨"KS", "PKS_KS", 0, 90, 0⟩, ⟨"KS", "PKS_KS", 120, 200, 0⟩]
      = [true, true] ∧
    Rule.conditions ⟨"multi-modular PKS", [], ["KS", "KS"], [], "0 and 1"⟩
      [⟨"KS", "PKS_KS", 0, 90, 1⟩, ⟨"KS", "PKS_KS", 0, 90, 0⟩]
      = [true, false] :=
  rule_conditions_multiplicity ⟨"multi-modular PKS", [], ["KS", "KS"], [], "0 and 1"⟩
    "KS" [⟨"KS", "PKS_KS", 0, 90, 0⟩, ⟨"KS", "PKS_KS", 120, 200, 0⟩] rfl
    ⟨"KS", "PKS_KS", 0, 90, 0⟩ ⟨"KS", "PKS_KS", 120, 200, 0⟩
    (by simp) (by simp) (by decide) rfl rfl (by decide) (by decide)
    ⟨"KS", "PKS_KS", 0, 90, 1⟩ ⟨"KS", "PKS_KS", 0, 90, 0⟩
    rfl rfl (by decide) (by decide) (by decide)

/-- Traversal only ever appends to the classifier list (list graphs). -/
theorem traverseList_classifiers_prefix (rules : String → RuleObj)
    (items : List GraphItem) (domains : List Domain) (cls : List String) :
    ∃ s, (traverseList rules items domains cls).1 = cls ++ s := by
  refine traverseList.induct rules
    (fun items domains cls => ∃ s, (traverseList rules items domains cls).1 = cls ++ s)
    (fun entries domains cls => ∃ s, (traverseTree rules entries domains cls).1 = cls ++ s)
    ?_ ?_ ?_ ?_ ?_ ?_ ?_ ?_ items domains cls
  · intro domains cls
    exact ⟨[], by rw [traverseList]; simp⟩
  · intro entries rest domains cls hEmpty ih2 ih1
    obtain ⟨s2, hs2⟩ := ih2
    obtain ⟨s1, hs1⟩ := ih1
    refine ⟨s2 ++ s1, ?_⟩
    rw [traverseList]
    simp only [hEmpty, if_true]
    rw [hs1, hs2, List.append_assoc]
  · intro entries rest domains cls hNE ih2
    obtain ⟨s2, hs2⟩ := ih2
    refine ⟨s2, ?_⟩
    rw [traverseList]
    simp only [hNE, if_false]
    exact hs2
  · intro name rest domains cls hsat
    refine ⟨[name], ?_⟩
    rw [traverseList, if_pos hsat]
  · intro name rest domains cls hunsat ih
    obtain ⟨s, hs⟩ := ih
    refine ⟨s, ?_⟩
    rw [traverseList, if_neg hunsat]
    exact hs
  · intro domains cls
    exact ⟨[], by rw [traverseTree]; simp⟩
  · intro name children rest domains cls hsat ih
    obtain ⟨s, hs⟩ := ih
    refine ⟨[name] ++ s, ?_⟩
    rw [traverseTree, if_pos hsat, hs, List.append_assoc]
  · intro name children rest domains cls hunsat ih
    obtain ⟨s, hs⟩ := ih
    refine ⟨s, ?_⟩
    rw [traverseTree, if_neg hunsat]
    exact hs

theorem traverseList_no_match (rules : String → RuleObj)
    (items : List GraphItem) (domains : List Domain) (cls : List String)
    (h : ∀ n ∈ graphNames items, (rules n).satisfiedBy domains = false) :
    traverseList rules items domains cls = (cls, domains) := by
  refine traverseList.induct rules
    (fun items domains cls =>
      (∀ n ∈ graphNames items, (rules n).satisfiedBy domains = false) →
        traverseList rules items domains cls = (cls, domains))
    (fun entries domains cls =>
      (∀ n ∈ entryNames entries, (rules n).satisfiedBy domains = false) →
        traverseTree rules entries domains cls = (cls, domains))
    ?_ ?_ ?_ ?_ ?_ ?_ ?_ ?_ items domains cls h
  · intro domains cls _
    rw [traverseList]
  · intro entries rest domains cls hEmpty ih2 ih1 hnames
    have hsub : ∀ n ∈ entryNames entries, (rules n).satisfiedBy domains = false := by
      intro n hn
      exact hnames n (by rw [graphNames, itemNames, List.mem_append]; exact Or.inl hn)
    have hr := ih2 hsub
    rw [hr] at ih1
    rw [traverseList]
    simp only [hEmpty, if_true]
    rw [hr]
    exact ih1 (fun n hn =>
      hnames n (by rw [graphNames, List.mem_append]; exact Or.inr hn))
  · intro entries rest domains cls hNE ih2 hnames
    have hsub : ∀ n ∈ entryNames entries, (rules n).satisfiedBy domains = false := by
      intro n hn
      exact hnames n (by rw [graphNames, itemNames, List.mem_append]; exact Or.inl hn)
    rw [traverseList]
    simp only [hNE, if_false]
    exact ih2 hsub
  · intro name rest domains cls hsat hnames
    exact absurd hsat (by
      rw [hnames name (by rw [graphNames, itemNames]; simp)]
      simp)
  · intro name rest domains cls hunsat ih hnames
    rw [traverseList, if_neg hunsat]
    exact ih (fun n hn =>
      hnames n (by rw [graphNames, List.mem_append]; exact Or.inr hn))
  · intro domains cls _
    rw [traverseTree]
  · intro name children rest domains cls hsat ih hnames
    exact absurd hsat (by
      rw [hnames name (by rw [entryNames]; simp)]
      simp)
  · intro name children rest domains cls hunsat ih hnames
    rw [traverseTree, if_neg hunsat]
    exact ih (fun n hn =>
      hnames n (by rw [entryNames]; simp; right; right; exact hn))

/-- A singleton list graph holding one dict behaves as that dict: both
branches of the `if classifiers:` check return the recursive result. -/
theorem traverseList_singleton_tree (rules : String → RuleObj)
    (entries : List (String × List GraphItem)) (domains : List Domain)
    (cls : List String) :
    traverseList rules [.tree entries] domains cls
      = traverseTree rules entries domains cls := by
  rw [traverseList]
  by_cases h : (traverseTree rules entries domains cls).1.isEmpty
  · rw [if_pos h, traverseList]
  · rw [if_neg h]

/-- Traversal only ever appends to the classifier list (dict graphs). -/
theorem traverseTree_classifiers_prefix (rules : String → RuleObj)
    (entries : List (String × List GraphItem)) (domains : List Domain)
    (cls : List String) :
    ∃ s, (traverseTree rules entries domains cls).1 = cls ++ s := by
  rw [← traverseList_singleton_tree]
  exact traverseList_classifiers_prefix rules [.tree entries] domains cls

/-- C1 (amended), in four parts: (1) a satisfied name node ends the
sibling scan immediately — renames run, the name is appended and the rest
of the siblings are never evaluated; (2) a satisfied dict node likewise
recurses into its children and stops the scan; (3) when no rule named
anywhere in the (sub)graph is satisfied, the accumulated path and domains
are returned unchanged; but (4) when the accumulated path is already
non-empty, a dict sibling always ends the scan — even when nothing inside
it was satisfied — because the post-recursion `if classifiers:` check sees
the inherited non-empty list, so later siblings are skipped without being
tested. -/
theorem traverseGraph_sibling_semantics :
    (∀ (rules : String → RuleObj) (name : String) (rest : List GraphItem)
        (domains : List Domain) (cls : List String),
      (rules name).satisfiedBy domains = true →
      traverseList rules (.leaf name :: rest) domains cls
        = (cls ++ [name], (rules name).renameDomains domains)) ∧
    (∀ (rules : String → RuleObj) (name : String) (children : List GraphItem)
        (rest : List (String × List GraphItem)) (domains : List Domain)
        (cls : List String),
      (rules name).satisfiedBy domains = true →
      traverseTree rules ((name, children) :: rest) domains cls
        = traverseList rules children ((rules name).renameDomains domains)
            (cls ++ [name])) ∧
    (∀ (rules : String → RuleObj) (items : List GraphItem)
        (domains : List Domain) (cls : List String),
      (∀ n ∈ graphNames items, (rules n).satisfiedBy domains = false) →
      traverseList rules items domains cls = (cls, domains)) ∧
    (∀ (rules : String → RuleObj) (entries : List (String × List GraphItem))
        (rest : List GraphItem) (domains : List Domain) (cls : List String),
      cls ≠ [] →
      traverseList rules (.tree entries :: rest) domains cls
        = traverseTree rules entries domains cls) := by
  refine ⟨?_, ?_, ?_, ?_⟩
  · intro rules name rest domains cls hsat
    rw [traverseList, if_pos hsat]
  · intro rules name children rest domains cls hsat
    rw [traverseTree, if_pos hsat]
  · exact traverseList_no_match
  · intro rules entries rest domains cls hcls
    obtain ⟨s2, hs2⟩ := traverseTree_classifiers_prefix rules entries domains cls
    rw [traverseList]
    rw [if_neg]
    rw [hs2]
    intro hc
    rcases cls with _ | ⟨a, t⟩
    · exact hcls rfl
    · simp at hc

/-- C1 (counterexample): with rules A and C always satisfied and B never,
the graph `[{"A": [{"B": ["X"]}, "C"]}]` classifies to `["A"]` only: after
"A" matches, the unsatisfied subtree `{"B": ...}` stops the sibling scan
(the inherited path `["A"]` is non-empty), so the satisfied sibling "C" is
never evaluated and never appended, contradicting first-match-wins. -/
theorem traverseGraph_skips_satisfied_sibling :
    ruleGraphClassify cexRules cexGraph [] = (["A"], []) ∧
    (cexRules "C").satisfiedBy [] = true ∧
    "C" ∉ (ruleGraphClassify cexRules cexGraph []).1 := by
  have hBX : traverseTree cexRules [("B", [.leaf "X"])] [] ["A"] = (["A"], []) := by
    rw [traverseTree, if_neg (by decide), traverseTree]
  have hInner : traverseList cexRules [.tree [("B", [.leaf "X"])], .leaf "C"] [] ["A"]
      = (["A"], []) := by
    rw [traverseList, hBX]
    simp only [List.isEmpty_cons, Bool.false_eq_true, if_false]
  have hA : traverseTree cexRules [("A", [.tree [("B", [.leaf "X"])], .leaf "C"])] [] []
      = (["A"], []) := by
    rw [traverseTree, if_pos (by decide)]
    rw [show (cexRules "A").renameDomains [] = [] from rfl]
    rw [show ([] : List String) ++ ["A"] = ["A"] from rfl]
    exact hInner
  have h : ruleGraphClassify cexRules cexGraph [] = (["A"], []) := by
    rw [ruleGraphClassify, cexGraph, traverseList, hA]
    simp only [List.isEmpty_cons, Bool.false_eq_true, if_false]
  refine ⟨h, by decide, ?_⟩
  rw [h]
  simp

/-- Concrete instantiation of `traverseGraph_sibling_semantics`: a
satisfied leaf stops the scan, an all-unsatisfied list returns the path
unchanged, and a dict sibling with a non-empty inherited path ends the
scan. -/
theorem traverseGraph_sibling_semantics_witness :
    traverseList cexRules [.leaf "A", .leaf "C"] [] [] = (["A"], []) ∧
    traverseList cexRules [.leaf "B", .leaf "X"] [] ["A"] = (["A"], []) ∧
    traverseList cexRules [.tree [("B", [.leaf "X"])], .leaf "C"] [] ["A"]
      = traverseTree cexRules [("B", [.leaf "X"])] [] ["A"] := by
  refine ⟨?_, ?_, ?_⟩
  · exact traverseGraph_sibling_semantics.1 cexRules "A" [.leaf "C"] [] [] (by decide)
  · refine traverseGraph_sibling_semantics.2.2.1 cexRules [.leaf "B", .leaf "X"] [] ["A"] ?_
    intro n hn
    simp only [graphNames, itemNames, List.mem_append, List.mem_singleton,
      List.not_mem_nil, or_false] at hn
    rcases hn with rfl | rfl <;> decide
  · exact traverseGraph_sibling_semantics.2.2.2 cexRules [("B", [.leaf "X"])]
      [.leaf "C"] [] ["A"] (by simp)
